import Mathlib

set_option maxRecDepth 4000

/-!
Shallow embedding of the OpenWRT_AutoConfigure repository's chunking and
incremental vector-index synchronization engine.

Sources embedded:
- `src/uci_splitter_Add_Coment.py` : class `UCISplitter`
  (`generate_annotation`, `_flush_buffer`, `split_config`);
- `src/config.py` : the mapping table (`file_path_to_vector_id`,
  `vector_id_to_file_path`), `save_mappings`, `load_mappings`,
  `sync_modified_config`, `sync_and_split_config`,
  `retrieve_relevant_chunks`, and the knowledge-unit registration block of
  `generate_script`.

Modelling conventions:
- Python `dict`s are association lists mutated only through `dset` (insert or
  update in place, as Python assignment does), `ddel` (delete a key) and read
  through `dget`; keys stay in insertion order, as in CPython.
- File system directories (`uci_configs`, `uci_annotations`) are association
  lists from file name to file text; `pathlib.Path.glob` is modelled as an
  ordered filter over that list (glob's enumeration order is unspecified in
  CPython; the model fixes it to insertion order).  Paths are taken relative
  to the owning directory; the knowledge sub-directory's files get names
  prefixed with `knowledge/`, so chunk paths and knowledge paths never clash,
  exactly as the full paths `uci_configs/...` and `uci_configs/knowledge/...`
  never clash.
- `hashlib.md5(...).hexdigest()` is modelled as an injective digest, i.e. as
  the identity on the hashed text (the code uses digest equality only as a
  proxy for content equality).
- The faiss index (`vector_db`) is modelled by the list of ids of its live
  vectors: `ntotal` is the list's length; `add` stores a new vector under id
  `ntotal` (faiss `IndexIVF.add` assigns sequential ids starting at the
  current `ntotal`), and `remove_ids` deletes the given ids and thereby
  decreases `ntotal` by the number of vectors removed, without renumbering
  the ids kept.  Embedding vectors themselves carry no information relevant
  to any claim and are not stored.
- The external LLM (`client.chat.completions.create`) is a parameter giving
  the outcome (normal reply or exception) of each call; the remote router
  (`uci export` over ssh) is a parameter from package name to exported text.
-/

/-! ## Python dict primitives -/

/-- Python `d[k]` / `d.get(k)`: first (and, for dicts built by `dset`/`ddel`,
only) binding of `k`. -/
def dget [DecidableEq α] (m : List (α × β)) (k : α) : Option β :=
  match m with
  | [] => none
  | (k', v) :: t => if k' = k then some v else dget t k

/-- Python `d[k] = v`: update the existing binding in place, else append. -/
def dset [DecidableEq α] (m : List (α × β)) (k : α) (v : β) : List (α × β) :=
  match m with
  | [] => [(k, v)]
  | (k', v') :: t => if k' = k then (k, v) :: t else (k', v') :: dset t k v

/-- Python `del d[k]` (tolerant form: deleting an absent key is a no-op, the
code always guards deletions with `if k in d`). -/
def ddel [DecidableEq α] (m : List (α × β)) (k : α) : List (α × β) :=
  m.filter (fun kv => !decide (kv.1 = k))

/-- The keys of a modelled dict, in order. -/
def dkeys (m : List (α × β)) : List α := m.map (·.1)

/-! ## String utilities (kernel-reducible, built on `List Char`) -/

/-- A single quote character, used to assemble UCI text fixtures. -/
def sqt : String := ⟨['\'']⟩

/-- Python `str.startswith`. -/
def strStartsWith (s p : String) : Bool := p.toList.isPrefixOf s.toList

/-- Python `str.endswith`. -/
def strEndsWith (s p : String) : Bool := p.toList.reverse.isPrefixOf s.toList.reverse

/-- The whitespace class of Python's regex `\s` and of `str.strip` (ASCII
part): space, tab, newline, carriage return, vertical tab, form feed. -/
def isPySpace (c : Char) : Bool :=
  c = ' ' || c = '\t' || c = '\n' || c = '\r' || c = Char.ofNat 11 || c = Char.ofNat 12

/-- Python `str.strip()` (whitespace from both ends). -/
def pyStrip (s : String) : String :=
  ⟨((s.toList.dropWhile isPySpace).reverse.dropWhile isPySpace).reverse⟩

/-- Python `sep.join(parts)`. -/
def pyJoin (sep : String) : List String → String
  | [] => ""
  | [x] => x
  | x :: xs => x ++ sep ++ pyJoin sep xs

/-- Python list slice `l[-k:]`: the last `k` elements — except that `l[-0:]`
is the whole list. -/
def pyTakeLast (k : Nat) (l : List α) : List α :=
  if k = 0 then l else l.drop (l.length - k)

/-- `sum(len(l) for l in buffer)`. -/
def sumLen (l : List String) : Nat := (l.map String.length).sum

/-- Split text into lines the way Python file iteration does: each line keeps
its trailing newline; a last line without a newline is still yielded; empty
text yields no lines. -/
def splitLinesAux : List Char → List Char → List String
  | [], [] => []
  | [], acc => [⟨acc.reverse⟩]
  | '\n' :: t, acc => ⟨(('\n' :: acc).reverse)⟩ :: splitLinesAux t []
  | c :: t, acc => splitLinesAux t (c :: acc)

/-- The lines of a piece of text, as iterated by `for line in f`. -/
def splitLines (s : String) : List String := splitLinesAux s.toList []

/-! ## Decimal printing and parsing (Python `str(n)` / `int(s)` for `n ≥ 0`) -/

/-- Digits of `n` (big-endian), fuel-based so that it is structurally
recursive and kernel-reducible; `fuel ≥ n` suffices. -/
def natDigitsAux : Nat → Nat → List Char
  | 0, _ => []
  | _ + 1, 0 => []
  | fuel + 1, n + 1 =>
    natDigitsAux fuel ((n + 1) / 10) ++ [Nat.digitChar ((n + 1) % 10)]

/-- Python `str(n)` for a natural number. -/
def natToStr (n : Nat) : String :=
  if n = 0 then "0" else ⟨natDigitsAux n n⟩

/-- One step of decimal parsing. -/
def parseStep (a : Nat) (c : Char) : Nat := a * 10 + (c.toNat - 48)

/-- Python `int(s)` on a string of decimal digits; `none` models the
`ValueError` raised on anything else. -/
def parseNat (s : String) : Option Nat :=
  let cs := s.toList
  if cs ≠ [] ∧ cs.all Char.isDigit then some (cs.foldl parseStep 0) else none

/-! ## The UCI line patterns of `UCISplitter` -/

/-- Drop a required run of at least one `\s` character; `none` if the first
character is not whitespace. -/
def dropWs1 (cs : List Char) : Option (List Char) :=
  match cs with
  | [] => none
  | c :: t => if isPySpace c then some (t.dropWhile isPySpace) else none

/-- The maximal leading run of non-whitespace characters, required nonempty
(`\S+`), together with the rest. -/
def takeNonWs1 (cs : List Char) : Option (List Char × List Char) :=
  match cs with
  | [] => none
  | c :: t =>
    if isPySpace c then none
    else some (c :: t.takeWhile (fun d => !isPySpace d), t.dropWhile (fun d => !isPySpace d))

/-- `self.package_pattern = re.compile(r'^package\s+(\S+)')` applied with
`re.match`: on success, the captured package name. -/
def matchPackageLine (line : String) : Option String := do
  let cs := line.toList
  let rest ← if ("package".toList).isPrefixOf cs then some (cs.drop 7) else none
  let rest ← dropWs1 rest
  let (tok, _) ← takeNonWs1 rest
  some ⟨tok⟩

/-- `self.config_header_pattern = re.compile(r'^config\s+(\S+)\s+\'(\S+)\'')`
applied with `re.match`: whether the line starts a structural config unit.
After the opening quote, `(\S+)\'` succeeds exactly when the maximal
non-whitespace run there contains a quote at position `≥ 1`. -/
def matchConfigHeader (line : String) : Bool :=
  let cs := line.toList
  (Option.isSome <| do
    let rest ← if ("config".toList).isPrefixOf cs then some (cs.drop 6) else none
    let rest ← dropWs1 rest
    let (_, rest) ← takeNonWs1 rest
    let rest ← dropWs1 rest
    let rest ← match rest with
      | c :: t => if c = '\'' then some t else none
      | [] => none
    let run := rest.takeWhile (fun d => !isPySpace d)
    if (run.drop 1).contains '\'' then some () else none)

/-- The split-point search of `split_config` (lines 99-103): scan the buffer
from the end and return the index of the last line matching
`config_header_pattern` (`last_config_pos`), if any. -/
def lastConfigPos : List String → Option Nat
  | [] => none
  | l :: t =>
    match lastConfigPos t with
    | some i => some (i + 1)
    | none => if matchConfigHeader l then some 0 else none

/-! ## The chunker: class `UCISplitter` (src/uci_splitter_Add_Coment.py)

`max_chunk_size` and `overlap` are the constructor parameters; the instance
used by `src/config.py` (line 25) is `UCISplitter(max_chunk_size=500,
overlap=20)`.  `last_buffer_hash` persists on the instance across
`split_config` invocations. -/

/-- A flushed chunk, as recorded in `split_config`'s `tasks` list:
`(filename, buffer_content, current_package, chunk_num)`.  The extra `forced`
field is ghost instrumentation recording whether the chunk was written by the
no-config-boundary forced split branch (line 119-124 of the source); it has no
effect on any computation. -/
structure Chunk where
  name : String
  content : String
  pkg : String
  num : Nat
  forced : Bool
deriving DecidableEq

/-- The mutable state of one `split_config` run: the splitter instance's
`last_buffer_hash`, the loop locals `current_package`, `buffer`,
`buffer_size`, the output directory, and the accumulated `tasks`. -/
structure SplitState where
  last_buffer_hash : Option String
  current_package : Option String
  buffer : List String
  buffer_size : Nat
  fs : List (String × String)
  tasks : List Chunk
deriving DecidableEq

/-- `hashlib.md5(buffer_content.encode()).hexdigest()`, modelled as an
injective digest (the identity on the text): the code compares digests only
as a proxy for content equality. -/
def mdHash (s : String) : String := s

/-- `package.replace('.', '_')`. -/
def pkgSafe (p : String) : String :=
  ⟨p.toList.map (fun c => if c = '.' then '_' else c)⟩

/-- The header line `_flush_buffer` prepends:
`f"# Parent Package: {current_package}\n\n"`. -/
def headerFor (pkg : String) : String := ("# Parent Package: ") ++ pkg ++ ("\n\n")

/-- `pathlib.Path.glob(f"{pre}*{suf}")` on a flat directory: the name starts
with `pre`, ends with `suf`, is long enough for both, and `*` never matches a
path separator.  Enumeration order is the directory list's order. -/
def globMatch (name pre suf : String) : Bool :=
  strStartsWith name pre && strEndsWith name suf &&
    decide (pre.length + suf.length ≤ name.length) && !(name.toList.contains '/')

/-- The names matched by `glob(f"{pre}*{suf}")`, in directory order. -/
def globNames (dir : List (String × String)) (pre suf : String) : List String :=
  (dir.filter (fun kv => globMatch kv.1 pre suf)).map (·.1)

/-- `UCISplitter._flush_buffer(buffer, current_package, output_dir)` (lines
44-66): skip an empty buffer; skip (without write) when the content digest
equals `last_buffer_hash`; otherwise update the digest, number the chunk by
counting existing `{safe_pkg}_*.txt` files plus one, and write
`{safe_pkg}_part{chunk_num}.txt` with the parent-package header.  A flush
with `current_package is None` raises (`None.replace`), modelled as
`Except.error`. -/
def flushBuffer (buf : List String) (st : SplitState) (forced : Bool) :
    Except String SplitState :=
  if buf = [] then .ok st
  else
    let buffer_content := pyJoin ("") buf
    let current_hash := mdHash buffer_content
    if st.last_buffer_hash = some current_hash then .ok st
    else
      match st.current_package with
      | none => .error ("AttributeError: NoneType has no attribute replace")
      | some pkg =>
        let safe_pkg := pkgSafe pkg
        let chunk_num := (globNames st.fs (safe_pkg ++ ("_")) (".txt")).length + 1
        let filename := safe_pkg ++ ("_part") ++ natToStr chunk_num ++ (".txt")
        .ok { st with
          last_buffer_hash := some current_hash,
          fs := dset st.fs filename (headerFor pkg ++ buffer_content),
          tasks := st.tasks ++ [⟨filename, buffer_content, pkg, chunk_num, forced⟩] }

/-- One iteration of `split_config`'s `for line in f` loop (lines 80-127):
flush on a `package` declaration; if accumulating the line would exceed
`max_chunk_size`, split at the config boundary nearest the end of the buffer
(keeping the last `overlap` lines of the flushed part), or force-flush the
whole buffer when no boundary exists; finally append the line. -/
def processLine (max_chunk_size overlap : Nat) (st : SplitState) (line : String) :
    Except String SplitState := do
  let st ← match matchPackageLine line with
    | some pkg =>
      if st.buffer = [] then pure { st with current_package := some pkg }
      else do
        let st ← flushBuffer st.buffer st false
        pure { st with buffer := [], buffer_size := 0, current_package := some pkg }
    | none => pure st
  let line_length := line.length
  let st ←
    if max_chunk_size < st.buffer_size + line_length then
      match lastConfigPos st.buffer with
      | some last_config_pos =>
        let chunk_part1 := st.buffer.take (last_config_pos + 1)
        let chunk_part2 := st.buffer.drop (last_config_pos + 1)
        do
          let st ← flushBuffer chunk_part1 st false
          pure { st with
            buffer := pyTakeLast overlap chunk_part1 ++ chunk_part2,
            buffer_size := sumLen (pyTakeLast overlap chunk_part1 ++ chunk_part2) }
      | none => do
        let st ← flushBuffer st.buffer st true
        pure { st with buffer := [], buffer_size := 0 }
    else pure st
  pure { st with buffer := st.buffer ++ [line],
                 buffer_size := st.buffer_size + line_length }

/-- `UCISplitter.generate_annotation(buffer_content, current_package,
chunk_num)` (lines 26-42): the summarizer call's outcome is `outcome`; a
normal reply is returned stripped; any exception is caught and mapped to the
deterministic fallback string — the function never raises. -/
def generateAnnotationFn (outcome : Except String String) (current_package : String)
    (chunk_num : Nat) : String :=
  match outcome with
  | .ok content => pyStrip content
  | .error _ =>
    ("This is the ") ++ natToStr chunk_num ++ ("th chunk file of the ")
      ++ current_package ++ (" package.")

/-- What one `split_config` call leaves behind: the splitter's updated
`last_buffer_hash`, the output directory, the annotation directory, and the
chunks written during this run. -/
structure SplitResult where
  last_buffer_hash : Option String
  fs : List (String × String)
  annFs : List (String × String)
  tasks : List Chunk
deriving DecidableEq

/-- `UCISplitter.split_config(input_file, output_dir, annotation_dir)` (lines
68-150).  `llm` gives the summarizer outcome per (content, package, number).
The concurrent annotation pool writes one annotation file per task; completion
order only permutes identical `dset` updates on distinct names, so it is
modelled in task order. -/
def split_config (max_chunk_size overlap : Nat) (last_buffer_hash : Option String)
    (fs0 annFs0 : List (String × String))
    (llm : String → String → Nat → Except String String) (input : String) :
    Except String SplitResult := do
  let init : SplitState :=
    { last_buffer_hash := last_buffer_hash, current_package := none,
      buffer := [], buffer_size := 0, fs := fs0, tasks := [] }
  let st ← (splitLines input).foldlM (processLine max_chunk_size overlap) init
  let st ← if st.buffer = [] then pure st else flushBuffer st.buffer st false
  let annFs := st.tasks.foldl
    (fun m c => dset m c.name (generateAnnotationFn (llm c.content c.pkg c.num) c.pkg c.num))
    annFs0
  pure ⟨st.last_buffer_hash, st.fs, annFs, st.tasks⟩

/-! ## The sync coordinator and mapping table (src/config.py) -/

/-- The coordinator's global state: the two mapping dicts, the faiss index
(list of live vector ids; `ntotal` is its length), the `uci_configs`
directory (knowledge-unit files appear under `knowledge/`-prefixed names),
the `uci_annotations` directory, and the shared splitter instance's
persistent `last_buffer_hash`. -/
structure GState where
  file_path_to_vector_id : List (String × Nat)
  vector_id_to_file_path : List (Nat × String)
  vector_db : List Nat
  fs : List (String × String)
  annFs : List (String × String)
  splitterHash : Option String
deriving DecidableEq

/-- Steps 1 of `sync_modified_config` (lines 134-142): the existing
`{pkg_name}_part*.txt` files of the given packages, in package order. -/
def oldFilesFor (dir : List (String × String)) (packages : List String) : List String :=
  (packages.map (fun p => globNames dir (pkgSafe p ++ ("_part")) (".txt"))).flatten

/-- Steps 1-3 of `sync_modified_config` (lines 134-168): resolve the old
chunk files' vector ids through the mapping table (`get(..., -1)` plus the
`!= -1` filter is `filterMap dget`), batch-remove them from the index — faiss
`remove_ids` deletes the vectors and decreases `ntotal` accordingly, without
renumbering survivors — delete the corresponding entries of both maps (all
guarded by `if delete_vector_ids:`), then unlink the old chunk and annotation
files. -/
def syncDeletePhase (s : GState) (packages : List String) : GState :=
  let old_config_files := oldFilesFor s.fs packages
  let old_ann_files := oldFilesFor s.annFs packages
  let delete_vector_ids :=
    old_config_files.filterMap (fun f => dget s.file_path_to_vector_id f)
  let s :=
    if delete_vector_ids = [] then s
    else
      { s with
        vector_db := s.vector_db.filter (fun i => !(delete_vector_ids.contains i)),
        file_path_to_vector_id :=
          old_config_files.foldl (fun m f => ddel m f) s.file_path_to_vector_id,
        vector_id_to_file_path :=
          delete_vector_ids.foldl (fun m i => ddel m i) s.vector_id_to_file_path }
  { s with fs := old_config_files.foldl (fun d f => ddel d f) s.fs,
           annFs := old_ann_files.foldl (fun d f => ddel d f) s.annFs }

/-- One vector insertion (lines 199-208 / 244-250 / 463-469): embed the chunk
(the embedding itself carries no claim-relevant information), assign
`vector_id = vector_db.ntotal`, add, and record the pair in both maps. -/
def registerChunk (s : GState) (file_path : String) : GState :=
  let vector_id := s.vector_db.length
  { s with
    vector_db := s.vector_db ++ [vector_id],
    file_path_to_vector_id := dset s.file_path_to_vector_id file_path vector_id,
    vector_id_to_file_path := dset s.vector_id_to_file_path vector_id file_path }

/-- Step 5 of `sync_modified_config` (lines 199-208): register every updated
chunk file. -/
def syncAddPhase (s : GState) (updated_chunks : List String) : GState :=
  updated_chunks.foldl registerChunk s

/-- Step 4 of `sync_modified_config` (lines 170-195): per package, fetch the
fresh export (`routerCfg`), skip the package if it is empty, write the
temporary file, re-split, unlink the temporary file, and collect the newly
generated `{pkg_name}_part*.txt` chunk files.  `500` and `20` are the shared
splitter instance's constructor arguments (src/config.py line 25). -/
def syncRegenStep (routerCfg : String → String)
    (llm : String → String → Nat → Except String String)
    (acc : GState × List String) (package : String) :
    Except String (GState × List String) :=
  if routerCfg package = "" then pure acc
  else do
    let r ← split_config 500 20 acc.1.splitterHash
      (dset acc.1.fs (("temp_") ++ package ++ (".txt")) (routerCfg package))
      acc.1.annFs llm (routerCfg package)
    let fs := ddel r.fs (("temp_") ++ package ++ (".txt"))
    pure ({ acc.1 with fs := fs, annFs := r.annFs, splitterHash := r.last_buffer_hash },
          acc.2 ++ globNames fs (pkgSafe package ++ ("_part")) (".txt"))

def syncRegenPhase (routerCfg : String → String)
    (llm : String → String → Nat → Except String String)
    (s : GState) (packages : List String) : Except String (GState × List String) :=
  packages.foldlM (syncRegenStep routerCfg llm) (s, [])

/-- `sync_modified_config(router_ip, packages)` (lines 127-215): delete the
packages' old vectors, mappings and files; regenerate chunks from fresh
exports; register the new chunks.  The final persistence step
(`faiss.write_index` + `save_mappings`, lines 210-212) is assumed to succeed
here; its failure behaviour is modelled separately by `syncPersistStep`. -/
def sync_modified_config (routerCfg : String → String)
    (llm : String → String → Nat → Except String String)
    (s : GState) (packages : List String) : Except String (GState × List String) := do
  let s1 := syncDeletePhase s packages
  let (s2, updated_chunks) ← syncRegenPhase routerCfg llm s1 packages
  pure (syncAddPhase s2 updated_chunks, updated_chunks)

/-- `sync_and_split_config(router_ip)` (lines 217-254): clear both maps,
write `full_config.uci`, split the full export, then register every
non-knowledge `*.txt` file found in the chunk directory. -/
def sync_and_split_config (llm : String → String → Nat → Except String String)
    (s : GState) (full_config : String) : Except String GState := do
  let s := { s with file_path_to_vector_id := [], vector_id_to_file_path := [] }
  let fs := dset s.fs ("full_config.uci") full_config
  let r ← split_config 500 20 s.splitterHash fs s.annFs llm full_config
  let chunk_files := (r.fs.filter (fun kv =>
      strEndsWith kv.1 (".txt") && !(kv.1.toList.contains '/')
        && !(strStartsWith kv.1 ("knowledge_")))).map (·.1)
  let s := { s with fs := r.fs, annFs := r.annFs, splitterHash := r.last_buffer_hash }
  pure (syncAddPhase s chunk_files)

/-- The knowledge-unit registration of `generate_script` (lines 454-472):
write `knowledge/knowledge_{digest}.txt` (the `md5(command)[:8]` digest and
the file's composed text are parameters, their computation being external
I/O) and register it as one more vector with `vector_id = ntotal`. -/
def registerKnowledge (s : GState) (knowledge_id : String) (content : String) : GState :=
  let name := ("knowledge_") ++ knowledge_id ++ (".txt")
  let file_path := ("knowledge/") ++ name
  registerChunk { s with fs := dset s.fs file_path content } file_path

/-- `save_mappings()` (lines 65-72): the single JSON document, with
`file_to_id` keys kept, values through `int` (the identity on an int), and
`id_to_file` keys through `str`.  JSON serialization of a string-keyed
document of strings and ints is lossless and is elided. -/
structure SavedMappings where
  file_to_id : List (String × Nat)
  id_to_file : List (String × String)
deriving DecidableEq

def save_mappings (f2i : List (String × Nat)) (i2f : List (Nat × String)) :
    SavedMappings :=
  { file_to_id := f2i.map (fun kv => (kv.1, kv.2)),
    id_to_file := i2f.map (fun kv => (natToStr kv.1, kv.2)) }

/-- `load_mappings()` (lines 74-91): rebuild both dicts, converting
`id_to_file` keys back through `int(k)`; any exception (modelled: a
non-numeric key) leaves both maps empty. -/
def load_mappings (d : SavedMappings) : List (String × Nat) × List (Nat × String) :=
  match d.id_to_file.mapM (fun kv => (parseNat kv.1).map (fun n => (n, kv.2))) with
  | some id_to_file => (d.file_to_id.map (fun kv => (kv.1, kv.2)), id_to_file)
  | none => ([], [])

/-- `int(vector_id)` looked up in `vector_id_to_file_path.get(..., None)`:
faiss pads missing results with id `-1`, which is never a key. -/
def lookupVectorId (m : List (Nat × String)) (i : Int) : Option String :=
  if i < 0 then none else dget m i.toNat

/-- `retrieve_relevant_chunks(query, top_k)` (lines 256-280), given the ids
returned by `vector_db.search` (the embedding and distance values do not
affect the control flow): resolve each id through the map (`if not
file_path: continue` also skips an empty path), read the file (a missing
file's `FileNotFoundError` is caught and skipped), and join the surviving
texts with blank lines. -/
def retrieve_relevant_chunks (vector_id_to_file_path : List (Nat × String))
    (fs : List (String × String)) (indices : List Int) : String :=
  let relevant_chunks := indices.foldl
    (fun acc vector_id =>
      match lookupVectorId vector_id_to_file_path vector_id with
      | none => acc
      | some file_path =>
        if file_path = ("") then acc
        else
          match dget fs file_path with
          | none => acc
          | some content => acc ++ [content])
    ([] : List String)
  pyJoin ("\n\n") relevant_chunks

/-- Spec-side resolver, written from §4.5 of the spec: an id resolves when it
has a mapping entry whose file exists on disk; otherwise it is skipped.  Used
to state the retriever's refinement property. -/
def resolveId (m : List (Nat × String)) (fs : List (String × String)) (i : Int) :
    Option String :=
  match lookupVectorId m i with
  | none => none
  | some p => if p = ("") then none else dget fs p

/-- The persistence tail of a sync (lines 210-212, likewise 251-253 and
470-472): one `faiss.write_index` call and one `save_mappings` call, each
attempted exactly once — the source contains no retry construct.  Inputs are
the outcomes of the two external writes; output is the propagated result
together with the number of attempts made on each. -/
def syncPersistStep (write_index_outcome save_outcome : Except String Unit) :
    Except String Unit × Nat × Nat :=
  match write_index_outcome with
  | .error e => (.error e, 1, 0)
  | .ok _ =>
    match save_outcome with
    | .error e => (.error e, 1, 1)
    | .ok _ => (.ok (), 1, 1)

/-- The blanket `try/except` around the incremental update in
`generate_script` (lines 445-482): any exception — including a persistence
failure propagating out of `sync_modified_config` — is logged
(`collect_print`) and swallowed, and the endpoint still returns its success
payload.  Output: (request reports success, message logged). -/
def generateScriptKnowledgeBlock (incremental_update : Except String Unit) :
    Bool × Option String :=
  match incremental_update with
  | .ok _ => (true, none)
  | .error e => (true, some e)

/-- The Mapping Table invariant of the spec (§3, §8): the two dicts are exact
bidirectional inverses. -/
def invMapsB (f2i : List (String × Nat)) (i2f : List (Nat × String)) : Bool :=
  f2i.all (fun kv => decide (dget i2f kv.2 = some kv.1)) &&
    i2f.all (fun kv => decide (dget f2i kv.2 = some kv.1))

/-! ## Concrete fixtures

States and runs used by counterexamples and witnesses.  They use the
repository's splitter parameters (`max_chunk_size=500`, `overlap=20`). -/

/-- A summarizer that always fails, driving `generateAnnotationFn` to its
fallback branch (§4.2: failures must never be fatal). -/
def llmDown : String → String → Nat → Except String String :=
  fun _ _ _ => .error ("connection refused")

/-- The coordinator's fresh state: empty maps, empty index, empty
directories, a splitter that has never flushed. -/
def gs0 : GState := ⟨[], [], [], [], [], none⟩

/-- A two-package full export: one chunk for package `a`, one for `b`. -/
def cexFullConfig : String :=
  ("package a\nconfig x ") ++ sqt ++ ("y") ++ sqt ++ ("\npackage b\nconfig w ")
    ++ sqt ++ ("v") ++ sqt ++ ("\n")

/-- A fresh export for package `a` that splits into two chunks (its second
`package a` line is a package boundary for the chunker). -/
def cexRouterCfg : String → String := fun p =>
  if p = ("a") then
    ("package a\nconfig q ") ++ sqt ++ ("r") ++ sqt ++ ("\npackage a\noption z\n")
  else ("")

/-- State after the initial full sync: chunks `a_part1.txt` ↦ 0 and
`b_part1.txt` ↦ 1, live ids `[0, 1]`. -/
def cexState1 : Except String GState := sync_and_split_config llmDown gs0 cexFullConfig

/-- The same run paused after steps 1-4 of the module-scoped sync of `{a}`
(deletion and regeneration), just before the vector insertions of step 5. -/
def cexMid : Except String (GState × List String) :=
  cexState1.bind (fun s =>
    syncRegenPhase cexRouterCfg llmDown (syncDeletePhase s [("a")]) [("a")])

/-- State after the full module-scoped sync of `{a}`. -/
def cexState2 : Except String GState :=
  cexState1.bind (fun s =>
    (sync_modified_config cexRouterCfg llmDown s [("a")]).map (·.1))

/-- An unchanged single-chunk export for package `a`. -/
def c3Cfg : String → String := fun p =>
  if p = ("a") then ("package a\nconfig x ") ++ sqt ++ ("y") ++ sqt ++ ("\n") else ("")

/-- First module-scoped sync of `{a}` from a fresh state. -/
def c3s1 : Except String (GState × List String) :=
  sync_modified_config c3Cfg llmDown gs0 [("a")]

/-- Second module-scoped sync of `{a}`, source text unchanged. -/
def c3s2 : Except String (GState × List String) :=
  c3s1.bind (fun p => sync_modified_config c3Cfg llmDown p.1 [("a")])

/-- A 40-character option line. -/
def c5Filler : String := ("option abcdefghij abcdefghij abcdefghij\n")

/-- A 1023-character input whose single structural unit (`config x`) grows far
past `max_chunk_size = 500` while its header stays in the buffer. -/
def c5Input : String :=
  ("package a\nconfig x ") ++ sqt ++ ("y") ++ sqt ++ ("\n")
    ++ pyJoin ("") (List.replicate 25 c5Filler)

/-- The chunker run on `c5Input` from a fresh splitter. -/
def c5Run : Except String SplitResult := split_config 500 20 none [] [] llmDown c5Input

/-- A non-empty input that declares no package. -/
def c6Input : String := ("config a ") ++ sqt ++ ("b") ++ sqt ++ ("\n")

/-- Witness fixture: a config-header line. -/
def c4wCfgLine : String := ("config a ") ++ sqt ++ ("b") ++ sqt ++ ("\n")

/-- Witness fixture: an option line (no boundary). -/
def c4wOptLine : String := ("opt\n")

/-- Witness fixture: a splitter state holding one config unit and an option
line, 17 characters in total. -/
def c4wSt : SplitState :=
  { last_buffer_hash := none, current_package := some ("a"),
    buffer := [c4wCfgLine, c4wOptLine], buffer_size := 17, fs := [], tasks := [] }

/-- Witness fixture: a two-line input opening with a package declaration. -/
def c6wInput : String := ("package a\nx\n")

/-- Witness fixture: the state left by steps 1-4 of a module-scoped sync of
`{a}` from a fresh state with the single-chunk export of `c3Cfg` (checked
definitionally in the witness below). -/
def c1wMid : GState × List String :=
  (⟨[], [], [],
    [(("a_part1.txt"),
      ("# Parent Package: a\n\npackage a\nconfig x ") ++ sqt ++ ("y") ++ sqt ++ ("\n"))],
    [(("a_part1.txt"), ("This is the 1th chunk file of the a package."))],
    some (("package a\nconfig x ") ++ sqt ++ ("y") ++ sqt ++ ("\n"))⟩,
   [("a_part1.txt")])

/-! # Lemmas and theorems -/

/-! ## Decimal round trip -/

theorem natDigitsAux_zero (fuel : Nat) : natDigitsAux fuel 0 = [] := by
  cases fuel <;> rfl

theorem parseStep_digitChar (a d : Nat) (hd : d < 10) :
    parseStep a (Nat.digitChar d) = a * 10 + d := by
  interval_cases d <;> rfl

theorem digitChar_isDigit (d : Nat) (hd : d < 10) :
    (Nat.digitChar d).isDigit = true := by
  interval_cases d <;> rfl

theorem natDigitsAux_spec (fuel : Nat) :
    ∀ n, 0 < n → n ≤ fuel → ∀ a,
      (natDigitsAux fuel n).foldl parseStep a =
        a * 10 ^ (natDigitsAux fuel n).length + n := by
  induction fuel with
  | zero => intro n hn hle; omega
  | succ fuel ih =>
    intro n hn hle a
    obtain ⟨m, rfl⟩ : ∃ m, n = m + 1 := ⟨n - 1, by omega⟩
    have hstep : natDigitsAux (fuel + 1) (m + 1)
        = natDigitsAux fuel ((m + 1) / 10) ++ [Nat.digitChar ((m + 1) % 10)] := rfl
    rw [hstep, List.foldl_append]
    rcases Nat.eq_zero_or_pos ((m + 1) / 10) with hq | hq
    · rw [hq, natDigitsAux_zero]
      simp only [List.foldl_nil, List.foldl_cons, List.nil_append,
        List.length_cons, List.length_nil]
      have hm : m + 1 < 10 := by omega
      have hmod : (m + 1) % 10 = m + 1 := Nat.mod_eq_of_lt hm
      rw [hmod, parseStep_digitChar a (m + 1) hm]
      ring
    · have hlt : (m + 1) / 10 < m + 1 := Nat.div_lt_self (by omega) (by omega)
      have hle' : (m + 1) / 10 ≤ fuel := by omega
      rw [ih _ hq hle']
      simp only [List.foldl_cons, List.foldl_nil]
      rw [parseStep_digitChar _ _ (Nat.mod_lt _ (by omega))]
      simp only [List.length_append, List.length_cons, List.length_nil]
      have : (a * 10 ^ (natDigitsAux fuel ((m + 1) / 10)).length + (m + 1) / 10) * 10
            + (m + 1) % 10
          = a * 10 ^ ((natDigitsAux fuel ((m + 1) / 10)).length + (0 + 1))
            + ((m + 1) / 10 * 10 + (m + 1) % 10) := by ring
      rw [this]
      congr 1
      omega

theorem natDigitsAux_all_digits (fuel : Nat) :
    ∀ n, (natDigitsAux fuel n).all Char.isDigit = true := by
  induction fuel with
  | zero => intro n; rfl
  | succ fuel ih =>
    intro n
    match n with
    | 0 => rfl
    | m + 1 =>
      show ((natDigitsAux fuel ((m + 1) / 10) ++ [Nat.digitChar ((m + 1) % 10)]).all
          Char.isDigit) = true
      rw [List.all_append]
      simp [ih, digitChar_isDigit _ (Nat.mod_lt (m + 1) (by omega))]

theorem natDigitsAux_ne_nil (fuel m : Nat) (h : m + 1 ≤ fuel) :
    natDigitsAux fuel (m + 1) ≠ [] := by
  obtain ⟨f, rfl⟩ : ∃ f, fuel = f + 1 := ⟨fuel - 1, by omega⟩
  show natDigitsAux f ((m + 1) / 10) ++ [Nat.digitChar ((m + 1) % 10)] ≠ []
  simp

/-- Round trip: Python `int(str(n)) == n`. -/
theorem parseNat_natToStr (n : Nat) : parseNat (natToStr n) = some n := by
  rcases Nat.eq_zero_or_pos n with rfl | hn
  · rfl
  · obtain ⟨m, rfl⟩ : ∃ m, n = m + 1 := ⟨n - 1, by omega⟩
    have hne : natToStr (m + 1) = ⟨natDigitsAux (m + 1) (m + 1)⟩ := by
      unfold natToStr; simp
    rw [hne]
    unfold parseNat
    have htl : (String.mk (natDigitsAux (m + 1) (m + 1))).toList
        = natDigitsAux (m + 1) (m + 1) := rfl
    rw [htl]
    have hnn := natDigitsAux_ne_nil (m + 1) m (by omega)
    have hdig := natDigitsAux_all_digits (m + 1) (m + 1)
    rw [if_pos ⟨hnn, hdig⟩]
    have := natDigitsAux_spec (m + 1) (m + 1) (by omega) (by omega) 0
    rw [this]
    simp

/-! ## Dict lemmas -/

theorem dget_dset_self [DecidableEq α] (m : List (α × β)) (k : α) (v : β) :
    dget (dset m k v) k = some v := by
  induction m with
  | nil => simp [dget, dset]
  | cons kv t ih =>
    obtain ⟨a, b⟩ := kv
    by_cases ha : a = k
    · simp [dset, dget, ha]
    · simp [dset, dget, ha, ih]

theorem dget_dset_ne [DecidableEq α] (m : List (α × β)) (k k' : α) (v : β)
    (h : k' ≠ k) : dget (dset m k v) k' = dget m k' := by
  induction m with
  | nil => simp [dget, dset, Ne.symm h]
  | cons kv t ih =>
    obtain ⟨a, b⟩ := kv
    by_cases ha : a = k
    · subst ha
      simp [dset, dget, Ne.symm h]
    · simp [dset, dget, ha, ih]

theorem dget_eq_none [DecidableEq α] (m : List (α × β)) (k : α) :
    dget m k = none ↔ k ∉ dkeys m := by
  induction m with
  | nil => simp [dget, dkeys]
  | cons kv t ih =>
    obtain ⟨a, b⟩ := kv
    by_cases ha : a = k
    · subst ha
      simp [dget, dkeys]
    · rw [show dget ((a, b) :: t) k = dget t k from by simp [dget, ha]]
      rw [ih]
      simp only [dkeys, List.map_cons, List.mem_cons]
      constructor
      · intro h hc
        rcases hc with hc | hc
        · exact ha hc.symm
        · exact h hc
      · intro h hc
        exact h (Or.inr hc)

theorem mem_dkeys_of_dget [DecidableEq α] (m : List (α × β)) (k : α) (v : β)
    (h : dget m k = some v) : k ∈ dkeys m := by
  by_contra hk
  rw [(dget_eq_none m k).mpr hk] at h
  exact Option.noConfusion h

theorem mem_of_dget [DecidableEq α] (m : List (α × β)) (k : α) (v : β)
    (h : dget m k = some v) : (k, v) ∈ m := by
  induction m with
  | nil => simp [dget] at h
  | cons kv t ih =>
    obtain ⟨a, b⟩ := kv
    by_cases ha : a = k
    · subst ha
      simp [dget] at h
      simp [h]
    · simp [dget, ha] at h
      simp [ih h]

theorem dset_of_not_mem [DecidableEq α] (m : List (α × β)) (k : α) (v : β)
    (h : k ∉ dkeys m) : dset m k v = m ++ [(k, v)] := by
  induction m with
  | nil => simp [dset]
  | cons kv t ih =>
    obtain ⟨a, b⟩ := kv
    simp [dkeys] at h
    push_neg at h
    simp [dset, Ne.symm h.1]
    exact ih (by simp [dkeys, h.2])

theorem mem_dkeys_dset [DecidableEq α] (m : List (α × β)) (k k' : α) (v : β) :
    k' ∈ dkeys (dset m k v) ↔ k' ∈ dkeys m ∨ k' = k := by
  induction m with
  | nil => simp [dset, dkeys]
  | cons kv t ih =>
    obtain ⟨a, b⟩ := kv
    by_cases ha : a = k
    · subst ha
      simp [dset, dkeys]
      tauto
    · simp [dset, dget, ha, dkeys] at ih ⊢
      rw [ih]
      tauto

theorem dget_ddel_self [DecidableEq α] (m : List (α × β)) (k : α) :
    dget (ddel m k) k = none := by
  induction m with
  | nil => rfl
  | cons kv t ih =>
    obtain ⟨a, b⟩ := kv
    unfold ddel at ih ⊢
    rw [List.filter_cons]
    by_cases ha : a = k
    · simpa [ha] using ih
    · simpa [ha, dget] using ih

theorem dget_ddel_ne [DecidableEq α] (m : List (α × β)) (k k' : α) (h : k' ≠ k) :
    dget (ddel m k) k' = dget m k' := by
  induction m with
  | nil => rfl
  | cons kv t ih =>
    obtain ⟨a, b⟩ := kv
    unfold ddel at ih ⊢
    rw [List.filter_cons]
    by_cases ha : a = k
    · subst ha
      simp [dget, Ne.symm h, ih]
    · simp only [ha, decide_False, Bool.not_false, dget]
      by_cases hak : a = k'
      · simp [hak]
      · simp [hak, ih]

theorem dget_foldl_ddel [DecidableEq α] (L : List α) :
    ∀ (m : List (α × β)) (k : α),
      dget (L.foldl (fun m x => ddel m x) m) k = if k ∈ L then none else dget m k := by
  induction L with
  | nil => intro m k; simp
  | cons a L ih =>
    intro m k
    rw [List.foldl_cons, ih]
    by_cases hk : k ∈ L
    · simp [hk]
    · by_cases hka : k = a
      · subst hka
        simp [hk, dget_ddel_self]
      · simp [hk, hka, dget_ddel_ne _ _ _ hka]

theorem mem_foldl_ddel [DecidableEq α] (L : List α) :
    ∀ (m : List (α × β)) (kv : α × β),
      kv ∈ L.foldl (fun m x => ddel m x) m ↔ kv ∈ m ∧ kv.1 ∉ L := by
  induction L with
  | nil => simp
  | cons a L ih =>
    intro m kv
    rw [List.foldl_cons, ih]
    unfold ddel
    simp [List.mem_filter]
    tauto

theorem invMapsB_iff (f2i : List (String × Nat)) (i2f : List (Nat × String)) :
    invMapsB f2i i2f = true ↔
      (∀ kv ∈ f2i, dget i2f kv.2 = some kv.1) ∧
      (∀ kv ∈ i2f, dget f2i kv.2 = some kv.1) := by
  unfold invMapsB
  rw [Bool.and_eq_true, List.all_eq_true, List.all_eq_true]
  simp

/-! ## Invariant lemmas for the sync coordinator -/

theorem registerChunk_inv (s : GState) (p : String)
    (hinv : invMapsB s.file_path_to_vector_id s.vector_id_to_file_path = true)
    (hb : ∀ v ∈ dkeys s.vector_id_to_file_path, v < s.vector_db.length)
    (hp : dget s.file_path_to_vector_id p = none) :
    invMapsB (registerChunk s p).file_path_to_vector_id
        (registerChunk s p).vector_id_to_file_path = true ∧
    (∀ v ∈ dkeys (registerChunk s p).vector_id_to_file_path,
        v < (registerChunk s p).vector_db.length) ∧
    (registerChunk s p).vector_db.length = s.vector_db.length + 1 ∧
    (∀ q, q ≠ p →
      dget (registerChunk s p).file_path_to_vector_id q
        = dget s.file_path_to_vector_id q) := by
  have hproj1 : (registerChunk s p).file_path_to_vector_id
      = dset s.file_path_to_vector_id p s.vector_db.length := rfl
  have hproj2 : (registerChunk s p).vector_id_to_file_path
      = dset s.vector_id_to_file_path s.vector_db.length p := rfl
  have hproj3 : (registerChunk s p).vector_db = s.vector_db ++ [s.vector_db.length] := rfl
  have hvid : dget s.vector_id_to_file_path s.vector_db.length = none := by
    rw [dget_eq_none]
    intro hmem
    exact absurd (hb _ hmem) (lt_irrefl _)
  obtain ⟨hinv1, hinv2⟩ := (invMapsB_iff _ _).mp hinv
  refine ⟨?_, ?_, ?_, ?_⟩
  · rw [invMapsB_iff, hproj1, hproj2]
    constructor
    · intro kv hkv
      rw [dset_of_not_mem _ _ _ ((dget_eq_none _ _).mp hp)] at hkv
      rcases List.mem_append.mp hkv with hkv | hkv
      · have h1 := hinv1 kv hkv
        have h2 := mem_dkeys_of_dget _ _ _ h1
        have h3 : kv.2 ≠ s.vector_db.length := by
          intro he
          exact absurd (hb _ (he ▸ h2)) (lt_irrefl _)
        rw [dget_dset_ne _ _ _ _ h3]
        exact h1
      · rw [List.mem_singleton] at hkv
        subst hkv
        exact dget_dset_self _ _ _
    · intro kv hkv
      rw [dset_of_not_mem _ _ _ ((dget_eq_none _ _).mp hvid)] at hkv
      rcases List.mem_append.mp hkv with hkv | hkv
      · have h1 := hinv2 kv hkv
        have h2 := mem_dkeys_of_dget _ _ _ h1
        have h3 : kv.2 ≠ p := by
          intro he
          rw [he] at h2
          exact (dget_eq_none _ _).mp hp h2
        rw [dget_dset_ne _ _ _ _ h3]
        exact h1
      · rw [List.mem_singleton] at hkv
        subst hkv
        exact dget_dset_self _ _ _
  · intro v hv
    rw [hproj2] at hv
    rw [hproj3]
    rcases (mem_dkeys_dset _ _ _ _).mp hv with hv | hv
    · have := hb _ hv
      simp
      omega
    · subst hv
      simp
  · rw [hproj3]; simp
  · intro q hq
    rw [hproj1, dget_dset_ne _ _ _ _ hq]

theorem syncAddPhase_inv (chunks : List String) :
    ∀ s : GState,
      invMapsB s.file_path_to_vector_id s.vector_id_to_file_path = true →
      (∀ v ∈ dkeys s.vector_id_to_file_path, v < s.vector_db.length) →
      chunks.Nodup →
      (∀ p ∈ chunks, dget s.file_path_to_vector_id p = none) →
      invMapsB (syncAddPhase s chunks).file_path_to_vector_id
          (syncAddPhase s chunks).vector_id_to_file_path = true ∧
      (∀ v ∈ dkeys (syncAddPhase s chunks).vector_id_to_file_path,
          v < (syncAddPhase s chunks).vector_db.length) ∧
      (syncAddPhase s chunks).vector_db.length
          = s.vector_db.length + chunks.length := by
  induction chunks with
  | nil =>
    intro s hinv hb _ _
    exact ⟨hinv, hb, by simp [syncAddPhase]⟩
  | cons c cs ih =>
    intro s hinv hb hnd hfresh
    have hstep : syncAddPhase s (c :: cs) = syncAddPhase (registerChunk s c) cs := rfl
    obtain ⟨h1, h2, h3, h4⟩ :=
      registerChunk_inv s c hinv hb (hfresh c (List.mem_cons_self c cs))
    have hfresh' : ∀ p ∈ cs, dget (registerChunk s c).file_path_to_vector_id p = none := by
      intro p hp
      have hne : p ≠ c := by
        intro he
        subst he
        exact (List.nodup_cons.mp hnd).1 hp
      rw [h4 p hne]
      exact hfresh p (List.mem_cons_of_mem _ hp)
    obtain ⟨g1, g2, g3⟩ := ih (registerChunk s c) h1 h2 (List.nodup_cons.mp hnd).2 hfresh'
    rw [hstep]
    refine ⟨g1, g2, ?_⟩
    rw [g3, h3]
    simp
    omega

theorem syncDeletePhase_maps (s : GState) (packages : List String) :
    ((syncDeletePhase s packages).file_path_to_vector_id,
      (syncDeletePhase s packages).vector_id_to_file_path)
      = (if (oldFilesFor s.fs packages).filterMap
              (fun f => dget s.file_path_to_vector_id f) = []
         then (s.file_path_to_vector_id, s.vector_id_to_file_path)
         else
          ((oldFilesFor s.fs packages).foldl (fun m f => ddel m f)
              s.file_path_to_vector_id,
            ((oldFilesFor s.fs packages).filterMap
                (fun f => dget s.file_path_to_vector_id f)).foldl
              (fun m i => ddel m i) s.vector_id_to_file_path)) := by
  unfold syncDeletePhase
  dsimp only
  split <;> rfl

theorem syncDeletePhase_inv (s : GState) (packages : List String)
    (hinv : invMapsB s.file_path_to_vector_id s.vector_id_to_file_path = true) :
    invMapsB (syncDeletePhase s packages).file_path_to_vector_id
      (syncDeletePhase s packages).vector_id_to_file_path = true := by
  have hm := syncDeletePhase_maps s packages
  obtain ⟨hinv1, hinv2⟩ := (invMapsB_iff _ _).mp hinv
  by_cases hDe : (oldFilesFor s.fs packages).filterMap
      (fun f => dget s.file_path_to_vector_id f) = []
  · rw [if_pos hDe] at hm
    rw [Prod.ext_iff] at hm
    dsimp only at hm
    rw [hm.1, hm.2]
    exact hinv
  · rw [if_neg hDe] at hm
    rw [Prod.ext_iff] at hm
    dsimp only at hm
    rw [hm.1, hm.2, invMapsB_iff]
    constructor
    · intro kv hkv
      obtain ⟨hkv, hnp⟩ := (mem_foldl_ddel _ _ _).mp hkv
      rw [dget_foldl_ddel]
      have hnd : kv.2 ∉ (oldFilesFor s.fs packages).filterMap
          (fun f => dget s.file_path_to_vector_id f) := by
        intro hd
        obtain ⟨f, hf, hgf⟩ := List.mem_filterMap.mp hd
        have h1 := hinv1 kv hkv
        have h2 := hinv1 (f, kv.2) (mem_of_dget _ _ _ hgf)
        rw [h1] at h2
        have : f = kv.1 := (Option.some.inj h2).symm
        rw [this] at hf
        exact hnp hf
      rw [if_neg hnd]
      exact hinv1 kv hkv
    · intro kv hkv
      obtain ⟨hkv, hnd⟩ := (mem_foldl_ddel _ _ _).mp hkv
      rw [dget_foldl_ddel]
      have hnp : kv.2 ∉ oldFilesFor s.fs packages := by
        intro hp
        have h1 := hinv2 kv hkv
        have : kv.1 ∈ (oldFilesFor s.fs packages).filterMap
            (fun f => dget s.file_path_to_vector_id f) :=
          List.mem_filterMap.mpr ⟨kv.2, hp, h1⟩
        exact hnd this
      rw [if_neg hnp]
      exact hinv2 kv hkv

theorem foldlM_preserves {σ α : Type} (f : σ → α → Except String σ) (P : σ → σ → Prop)
    (hrefl : ∀ s, P s s) (htrans : ∀ a b c, P a b → P b c → P a c)
    (hf : ∀ s a s', f s a = Except.ok s' → P s s') :
    ∀ (l : List α) (s s' : σ), l.foldlM f s = Except.ok s' → P s s' := by
  intro l
  induction l with
  | nil =>
    intro s s' h
    simp [List.foldlM] at h
    rw [show s = s' from by
      cases h
      rfl]
    exact hrefl s'
  | cons a l ih =>
    intro s s' h
    rw [List.foldlM_cons] at h
    cases hfa : f s a with
    | error e =>
      rw [hfa] at h
      exact Except.noConfusion h
    | ok s1 =>
      rw [hfa] at h
      have h' : l.foldlM f s1 = Except.ok s' := h
      exact htrans _ _ _ (hf s a s1 hfa) (ih s1 s' h')

theorem syncRegenStep_maps (routerCfg : String → String)
    (llm : String → String → Nat → Except String String)
    (acc : GState × List String) (package : String) (acc' : GState × List String)
    (h : syncRegenStep routerCfg llm acc package = Except.ok acc') :
    acc'.1.file_path_to_vector_id = acc.1.file_path_to_vector_id ∧
    acc'.1.vector_id_to_file_path = acc.1.vector_id_to_file_path ∧
    acc'.1.vector_db = acc.1.vector_db := by
  unfold syncRegenStep at h
  by_cases hcfg : routerCfg package = ""
  · rw [if_pos hcfg] at h
    cases h
    exact ⟨rfl, rfl, rfl⟩
  · rw [if_neg hcfg] at h
    cases hsplit : split_config 500 20 acc.1.splitterHash
        (dset acc.1.fs (("temp_") ++ package ++ (".txt")) (routerCfg package))
        acc.1.annFs llm (routerCfg package) with
    | error e =>
      rw [hsplit] at h
      exact Except.noConfusion h
    | ok rr =>
      rw [hsplit] at h
      cases h
      exact ⟨rfl, rfl, rfl⟩

theorem syncRegenPhase_maps (routerCfg : String → String)
    (llm : String → String → Nat → Except String String)
    (s : GState) (packages : List String) (r : GState × List String)
    (h : syncRegenPhase routerCfg llm s packages = Except.ok r) :
    r.1.file_path_to_vector_id = s.file_path_to_vector_id ∧
    r.1.vector_id_to_file_path = s.vector_id_to_file_path ∧
    r.1.vector_db = s.vector_db :=
  foldlM_preserves (syncRegenStep routerCfg llm)
    (fun a b =>
      b.1.file_path_to_vector_id = a.1.file_path_to_vector_id ∧
      b.1.vector_id_to_file_path = a.1.vector_id_to_file_path ∧
      b.1.vector_db = a.1.vector_db)
    (fun _ => ⟨rfl, rfl, rfl⟩)
    (fun a b c hab hbc =>
      ⟨hbc.1.trans hab.1, hbc.2.1.trans hab.2.1, hbc.2.2.trans hab.2.2⟩)
    (fun a p a' hstep => syncRegenStep_maps routerCfg llm a p a' hstep)
    packages (s, []) r h

/-! ## Chunker lemmas -/

theorem flushBuffer_spec (buf : List String) (st : SplitState) (forced : Bool) :
    (buf = [] → flushBuffer buf st forced = Except.ok st) ∧
    (buf ≠ [] → st.last_buffer_hash = some (mdHash (pyJoin ("") buf)) →
      flushBuffer buf st forced = Except.ok st) ∧
    (buf ≠ [] → st.last_buffer_hash ≠ some (mdHash (pyJoin ("") buf)) →
      st.current_package = none →
      flushBuffer buf st forced
        = Except.error ("AttributeError: NoneType has no attribute replace")) ∧
    (∀ pkg, buf ≠ [] → st.last_buffer_hash ≠ some (mdHash (pyJoin ("") buf)) →
      st.current_package = some pkg →
      flushBuffer buf st forced = Except.ok { st with
        last_buffer_hash := some (mdHash (pyJoin ("") buf)),
        fs := dset st.fs
          (pkgSafe pkg ++ ("_part")
            ++ natToStr ((globNames st.fs (pkgSafe pkg ++ ("_")) (".txt")).length + 1)
            ++ (".txt"))
          (headerFor pkg ++ pyJoin ("") buf),
        tasks := st.tasks ++ [⟨pkgSafe pkg ++ ("_part")
            ++ natToStr ((globNames st.fs (pkgSafe pkg ++ ("_")) (".txt")).length + 1)
            ++ (".txt"), pyJoin ("") buf, pkg,
          (globNames st.fs (pkgSafe pkg ++ ("_")) (".txt")).length + 1, forced⟩] }) := by
  refine ⟨?_, ?_, ?_, ?_⟩
  · intro hb
    simp only [flushBuffer]
    rw [if_pos hb]
  · intro hb hh
    simp only [flushBuffer]
    rw [if_neg hb, if_pos hh]
  · intro hb hh hcp
    simp only [flushBuffer]
    rw [if_neg hb, if_neg hh, hcp]
  · intro pkg hb hh hcp
    simp only [flushBuffer]
    rw [if_neg hb, if_neg hh, hcp]

theorem except_bind_ok {ε α β : Type} (a : α) (f : α → Except ε β) :
    (Except.ok a >>= f) = f a := rfl

theorem except_bind_err {ε α β : Type} (e : ε) (f : α → Except ε β) :
    ((Except.error e : Except ε α) >>= f) = Except.error e := rfl

theorem except_pure_eq {ε α : Type} (a : α) : (pure a : Except ε α) = Except.ok a := rfl

theorem lastConfigPos_none_spec (l : List String) (h : lastConfigPos l = none) :
    ∀ x ∈ l, matchConfigHeader x = false := by
  induction l with
  | nil => intro x hx; cases hx
  | cons a t ih =>
    unfold lastConfigPos at h
    cases hr : lastConfigPos t with
    | some i => rw [hr] at h; cases h
    | none =>
      rw [hr] at h
      by_cases ha : matchConfigHeader a = true
      · rw [if_pos ha] at h; cases h
      · rw [if_neg ha] at h
        intro x hx
        rcases List.mem_cons.mp hx with rfl | hx
        · exact Bool.eq_false_iff.mpr ha
        · exact ih hr x hx

theorem lastConfigPos_some_spec (l : List String) :
    ∀ i, lastConfigPos l = some i →
      ∃ pre b post, l = pre ++ b :: post ∧ pre.length = i ∧
        matchConfigHeader b = true ∧ ∀ x ∈ post, matchConfigHeader x = false := by
  induction l with
  | nil => intro i h; cases h
  | cons a t ih =>
    intro i h
    unfold lastConfigPos at h
    cases hr : lastConfigPos t with
    | some j =>
      rw [hr] at h
      cases h
      obtain ⟨pre, b, post, he, hl, hb, hpost⟩ := ih j hr
      exact ⟨a :: pre, b, post, by rw [he]; rfl, by simp [hl], hb, hpost⟩
    | none =>
      rw [hr] at h
      by_cases ha : matchConfigHeader a = true
      · rw [if_pos ha] at h
        cases h
        exact ⟨[], a, t, rfl, rfl, ha, lastConfigPos_none_spec t hr⟩
      · rw [if_neg ha] at h
        cases h

theorem take_drop_decomp (pre : List α) (b : α) (post : List α) :
    (pre ++ b :: post).take (pre.length + 1) = pre ++ [b] ∧
    (pre ++ b :: post).drop (pre.length + 1) = post := by
  constructor
  · rw [List.take_append_eq_append_take]
    simp
  · rw [List.drop_append_eq_append_drop]
    simp

/-- C4: when accumulating a line would exceed `max_chunk_size`, `split_config`
splits at the structural (config-header) boundary closest to the end of the
buffer: the prefix through that boundary is flushed as a chunk, the suffix is
retained, and the last `overlap` lines of the flushed prefix are prepended to
the retained part (the incoming line is then appended); with no boundary in
the buffer, the whole buffer is flushed as a forced chunk with no overlap
retained.  The flush hypotheses (`current_package` set, digest differing from
`last_buffer_hash`) are the write conditions of `_flush_buffer`. -/
theorem C4_boundary_split (max_chunk_size overlap : Nat) (st : SplitState)
    (line : String) (p : String)
    (hov : overlap ≠ 0)
    (hpkg : matchPackageLine line = none)
    (hcur : st.current_package = some p)
    (hfire : max_chunk_size < st.buffer_size + line.length) :
    (∀ i, lastConfigPos st.buffer = some i →
      st.last_buffer_hash ≠ some (mdHash (pyJoin ("") (st.buffer.take (i + 1)))) →
      ∃ pre b post, st.buffer = pre ++ b :: post ∧ pre.length = i ∧
        matchConfigHeader b = true ∧ (∀ x ∈ post, matchConfigHeader x = false) ∧
        ∃ st', processLine max_chunk_size overlap st line = Except.ok st' ∧
          st'.buffer = (pre ++ [b]).drop (pre.length + 1 - overlap) ++ post ++ [line] ∧
          ∃ c, st'.tasks = st.tasks ++ [c] ∧
            c.content = pyJoin ("") (pre ++ [b]) ∧ c.forced = false) ∧
    (lastConfigPos st.buffer = none →
      (∀ x ∈ st.buffer, matchConfigHeader x = false) ∧
      (st.buffer ≠ [] →
        st.last_buffer_hash ≠ some (mdHash (pyJoin ("") st.buffer)) →
        ∃ st', processLine max_chunk_size overlap st line = Except.ok st' ∧
          st'.buffer = [line] ∧
          ∃ c, st'.tasks = st.tasks ++ [c] ∧
            c.content = pyJoin ("") st.buffer ∧ c.forced = true)) := by
  constructor
  · intro i hi hh
    obtain ⟨pre, b, post, hbuf, hl, hb, hpost⟩ := lastConfigPos_some_spec st.buffer i hi
    have ht : st.buffer.take (i + 1) = pre ++ [b] := by
      rw [hbuf, ← hl]
      exact (take_drop_decomp pre b post).1
    have hd : st.buffer.drop (i + 1) = post := by
      rw [hbuf, ← hl]
      exact (take_drop_decomp pre b post).2
    have hne : st.buffer.take (i + 1) ≠ [] := by
      rw [ht]
      simp
    have hflush := (flushBuffer_spec (st.buffer.take (i + 1)) st false).2.2.2 p hne hh hcur
    have hcomp : processLine max_chunk_size overlap st line = Except.ok
        { last_buffer_hash := some (mdHash (pyJoin ("") (st.buffer.take (i + 1)))),
          current_package := st.current_package,
          buffer := (pyTakeLast overlap (st.buffer.take (i + 1))
              ++ st.buffer.drop (i + 1)) ++ [line],
          buffer_size := sumLen (pyTakeLast overlap (st.buffer.take (i + 1))
              ++ st.buffer.drop (i + 1)) + line.length,
          fs := dset st.fs
            (pkgSafe p ++ ("_part")
              ++ natToStr ((globNames st.fs (pkgSafe p ++ ("_")) (".txt")).length + 1)
              ++ (".txt"))
            (headerFor p ++ pyJoin ("") (st.buffer.take (i + 1))),
          tasks := st.tasks ++ [⟨pkgSafe p ++ ("_part")
              ++ natToStr ((globNames st.fs (pkgSafe p ++ ("_")) (".txt")).length + 1)
              ++ (".txt"), pyJoin ("") (st.buffer.take (i + 1)), p,
            (globNames st.fs (pkgSafe p ++ ("_")) (".txt")).length + 1, false⟩] } := by
      simp only [processLine, hpkg, except_pure_eq, except_bind_ok]
      rw [if_pos hfire, hi]
      simp only [except_pure_eq, except_bind_ok]
      rw [hflush]
      rfl
    refine ⟨pre, b, post, hbuf, hl, hb, hpost, _, hcomp, ?_, ⟨_, rfl, ?_, rfl⟩⟩
    · show (pyTakeLast overlap (st.buffer.take (i + 1)) ++ st.buffer.drop (i + 1))
          ++ [line] = _
      rw [ht, hd]
      unfold pyTakeLast
      rw [if_neg hov]
      simp
    · show pyJoin ("") (st.buffer.take (i + 1)) = _
      rw [ht]
  · intro hi
    refine ⟨lastConfigPos_none_spec st.buffer hi, ?_⟩
    intro hbne hh
    have hflush := (flushBuffer_spec st.buffer st true).2.2.2 p hbne hh hcur
    have hcomp : processLine max_chunk_size overlap st line = Except.ok
        { last_buffer_hash := some (mdHash (pyJoin ("") st.buffer)),
          current_package := st.current_package,
          buffer := List.nil ++ [line],
          buffer_size := 0 + line.length,
          fs := dset st.fs
            (pkgSafe p ++ ("_part")
              ++ natToStr ((globNames st.fs (pkgSafe p ++ ("_")) (".txt")).length + 1)
              ++ (".txt"))
            (headerFor p ++ pyJoin ("") st.buffer),
          tasks := st.tasks ++ [⟨pkgSafe p ++ ("_part")
              ++ natToStr ((globNames st.fs (pkgSafe p ++ ("_")) (".txt")).length + 1)
              ++ (".txt"), pyJoin ("") st.buffer, p,
            (globNames st.fs (pkgSafe p ++ ("_")) (".txt")).length + 1, true⟩] } := by
      simp only [processLine, hpkg, except_pure_eq, except_bind_ok]
      rw [if_pos hfire, hi]
      simp only [except_pure_eq, except_bind_ok]
      rw [hflush]
      rfl
    refine ⟨_, hcomp, ?_, ⟨_, rfl, rfl, rfl⟩⟩
    show List.nil ++ [line] = [line]
    simp

/-- Witness for C4 at a concrete state: with `max_chunk_size = 10`,
`overlap = 2`, a 17-character buffer `[config-header, option]` and an
incoming 2-character line, the chunker flushes the prefix through the
boundary (just the header: the boundary closest to the end is index 0) and
retains everything (the 1-line flushed part is within the overlap). -/
theorem C4_boundary_split_witness :
    ∃ st', processLine 10 2 c4wSt ("x\n") = Except.ok st' ∧
      st'.buffer = [c4wCfgLine, c4wOptLine, ("x\n")] ∧
      ∃ c, st'.tasks = [c] ∧ c.content = c4wCfgLine ∧ c.forced = false := by
  obtain ⟨h1, _⟩ := C4_boundary_split 10 2 c4wSt ("x\n") ("a") (by decide) (by decide)
    rfl (by decide)
  obtain ⟨pre, b, post, hbuf, hl, hb, hpost, st', hok, hbuf', c, htasks, hc, hf⟩ :=
    h1 0 (by decide) (by decide)
  have hpre : pre = [] := List.eq_nil_of_length_eq_zero hl
  subst hpre
  simp only [List.nil_append] at hbuf hbuf' hc
  have hb2 : ([c4wCfgLine, c4wOptLine] : List String) = b :: post := hbuf
  injection hb2 with hb1 hb3
  subst hb1
  subst hb3
  refine ⟨st', hok, ?_, c, ?_, ?_, hf⟩
  · rw [hbuf']
    rfl
  · rw [htasks]
    rfl
  · rw [hc]
    rfl

theorem pyJoin_nil_sep_length : ∀ l : List String, (pyJoin ("") l).length = sumLen l := by
  intro l
  induction l with
  | nil => rfl
  | cons x xs ih =>
    cases xs with
    | nil => simp [pyJoin, sumLen]
    | cons y ys =>
      show (x ++ ("") ++ pyJoin ("") (y :: ys)).length = _
      rw [String.length_append, String.length_append, ih]
      simp [sumLen]

theorem sumLen_take_le : ∀ (n : Nat) (l : List String), sumLen (l.take n) ≤ sumLen l := by
  intro n l
  induction l generalizing n with
  | nil => simp [sumLen]
  | cons x xs ih =>
    cases n with
    | zero => simp [sumLen]
    | succ m =>
      simp only [List.take_succ_cons, sumLen, List.map_cons, List.sum_cons]
      have := ih m
      simp only [sumLen] at this
      omega

theorem flushBuffer_tasks_inv (buf : List String) (st : SplitState) (forced : Bool)
    (st' : SplitState) (h : flushBuffer buf st forced = Except.ok st') :
    st'.tasks = st.tasks ∨
      ∃ c, st'.tasks = st.tasks ++ [c] ∧ c.content = pyJoin ("") buf := by
  obtain ⟨s1, s2, s3, s4⟩ := flushBuffer_spec buf st forced
  by_cases hb : buf = []
  · rw [s1 hb] at h
    cases h
    exact Or.inl rfl
  · by_cases hh : st.last_buffer_hash = some (mdHash (pyJoin ("") buf))
    · rw [s2 hb hh] at h
      cases h
      exact Or.inl rfl
    · cases hcp : st.current_package with
      | none =>
        rw [s3 hb hh hcp] at h
        exact Except.noConfusion h
      | some pkg =>
        rw [s4 pkg hb hh hcp] at h
        cases h
        exact Or.inr ⟨_, rfl, rfl⟩

theorem flushBuffer_nil (st : SplitState) (forced : Bool) :
    flushBuffer [] st forced = Except.ok st :=
  (flushBuffer_spec [] st forced).1 rfl

/-- C5 (amended): a chunk flushed while processing one line never exceeds the
buffer's accumulated size, so whenever the buffer is within `max_chunk_size`
at the start of the iteration, every chunk the iteration writes has body at
most `max_chunk_size` characters (the written file adds only the
parent-package header).  Oversized chunks can therefore arise only from a
buffer that already overflowed — which the retention logic permits. -/
theorem C5_chunk_bound (max_chunk_size overlap : Nat) (st : SplitState) (line : String)
    (st' : SplitState)
    (hsum : st.buffer_size = sumLen st.buffer)
    (hbound : st.buffer_size ≤ max_chunk_size)
    (hstep : processLine max_chunk_size overlap st line = Except.ok st') :
    ∀ c ∈ st'.tasks, c ∈ st.tasks ∨ c.content.length ≤ max_chunk_size := by
  intro c hc
  cases hm : matchPackageLine line with
  | none =>
    simp only [processLine, hm, except_pure_eq, except_bind_ok] at hstep
    by_cases hf : max_chunk_size < st.buffer_size + line.length
    · rw [if_pos hf] at hstep
      cases hlp : lastConfigPos st.buffer with
      | some i =>
        simp only [hlp] at hstep
        cases hfl : flushBuffer (st.buffer.take (i + 1)) st false with
        | error e =>
          rw [hfl] at hstep
          simp only [except_bind_err] at hstep
          exact Except.noConfusion hstep
        | ok s0 =>
          rw [hfl] at hstep
          simp only [except_bind_ok, except_pure_eq] at hstep
          cases hstep
          simp only [] at hc
          rcases flushBuffer_tasks_inv _ _ _ _ hfl with heq | ⟨c0, heq, hcont⟩
          · rw [heq] at hc
            exact Or.inl hc
          · rw [heq] at hc
            rcases List.mem_append.mp hc with hc | hc
            · exact Or.inl hc
            · rw [List.mem_singleton] at hc
              subst hc
              refine Or.inr ?_
              rw [hcont, pyJoin_nil_sep_length]
              calc sumLen (st.buffer.take (i + 1)) ≤ sumLen st.buffer :=
                    sumLen_take_le _ _
                _ = st.buffer_size := hsum.symm
                _ ≤ max_chunk_size := hbound
      | none =>
        simp only [hlp] at hstep
        cases hfl : flushBuffer st.buffer st true with
        | error e =>
          rw [hfl] at hstep
          simp only [except_bind_err] at hstep
          exact Except.noConfusion hstep
        | ok s0 =>
          rw [hfl] at hstep
          simp only [except_bind_ok, except_pure_eq] at hstep
          cases hstep
          simp only [] at hc
          rcases flushBuffer_tasks_inv _ _ _ _ hfl with heq | ⟨c0, heq, hcont⟩
          · rw [heq] at hc
            exact Or.inl hc
          · rw [heq] at hc
            rcases List.mem_append.mp hc with hc | hc
            · exact Or.inl hc
            · rw [List.mem_singleton] at hc
              subst hc
              refine Or.inr ?_
              rw [hcont, pyJoin_nil_sep_length]
              rw [← hsum]
              exact hbound
    · rw [if_neg hf] at hstep
      cases hstep
      simp only [] at hc
      exact Or.inl hc
  | some pkg =>
    by_cases hbe : st.buffer = []
    · simp only [processLine, hm, hbe, if_pos, except_pure_eq, except_bind_ok] at hstep
      by_cases hf : max_chunk_size < st.buffer_size + line.length
      · rw [if_pos hf] at hstep
        simp only [show lastConfigPos ([] : List String) = none from rfl] at hstep
        rw [flushBuffer_nil] at hstep
        simp only [except_bind_ok, except_pure_eq] at hstep
        cases hstep
        simp only [] at hc
        exact Or.inl hc
      · rw [if_neg hf] at hstep
        cases hstep
        simp only [] at hc
        exact Or.inl hc
    · simp only [processLine, hm, hbe, if_neg, except_pure_eq, except_bind_ok] at hstep
      cases hfl : flushBuffer st.buffer st false with
      | error e =>
        rw [hfl] at hstep
        simp only [except_bind_err] at hstep
        exact Except.noConfusion hstep
      | ok s0 =>
        rw [hfl] at hstep
        simp only [except_bind_ok, except_pure_eq] at hstep
        have htask0 := flushBuffer_tasks_inv _ _ _ _ hfl
        by_cases hf : max_chunk_size < 0 + line.length
        · rw [if_pos hf] at hstep
          simp only [show lastConfigPos ([] : List String) = none from rfl] at hstep
          rw [flushBuffer_nil] at hstep
          simp only [except_bind_ok, except_pure_eq] at hstep
          cases hstep
          simp only [] at hc
          rcases htask0 with heq | ⟨c0, heq, hcont⟩
          · rw [heq] at hc
            exact Or.inl hc
          · rw [heq] at hc
            rcases List.mem_append.mp hc with hc | hc
            · exact Or.inl hc
            · rw [List.mem_singleton] at hc
              subst hc
              refine Or.inr ?_
              rw [hcont, pyJoin_nil_sep_length, ← hsum]
              exact hbound
        · rw [if_neg hf] at hstep
          cases hstep
          simp only [] at hc
          rcases htask0 with heq | ⟨c0, heq, hcont⟩
          · rw [heq] at hc
            exact Or.inl hc
          · rw [heq] at hc
            rcases List.mem_append.mp hc with hc | hc
            · exact Or.inl hc
            · rw [List.mem_singleton] at hc
              subst hc
              refine Or.inr ?_
              rw [hcont, pyJoin_nil_sep_length, ← hsum]
              exact hbound

theorem flushBuffer_INV (buf : List String) (st : SplitState) (forced : Bool)
    (hp : st.current_package.isSome = true)
    (hht : st.tasks = [] → st.last_buffer_hash = none) :
    ∃ st', flushBuffer buf st forced = Except.ok st' ∧
      st'.current_package = st.current_package ∧
      st'.buffer = st.buffer ∧
      st'.buffer_size = st.buffer_size ∧
      (st'.tasks = [] → st'.last_buffer_hash = none) ∧
      (st.tasks ≠ [] → st'.tasks ≠ []) ∧
      (st.tasks = [] → buf ≠ [] → st'.tasks ≠ []) := by
  obtain ⟨s1, s2, s3, s4⟩ := flushBuffer_spec buf st forced
  by_cases hb : buf = []
  · refine ⟨st, s1 hb, rfl, rfl, rfl, hht, fun h => h, fun _ hne => absurd hb hne⟩
  · by_cases hh : st.last_buffer_hash = some (mdHash (pyJoin ("") buf))
    · refine ⟨st, s2 hb hh, rfl, rfl, rfl, hht, fun h => h, fun hte _ => ?_⟩
      rw [hht hte] at hh
      exact Option.noConfusion hh
    · obtain ⟨p, hcp⟩ := Option.isSome_iff_exists.mp hp
      refine ⟨_, s4 p hb hh hcp, rfl, rfl, rfl, ?_, ?_, ?_⟩
      · intro habs
        exact absurd habs (by simp)
      · intro _
        simp
      · intro _ _
        simp

theorem processLine_INV (max_chunk_size overlap : Nat) (st : SplitState) (line : String)
    (hp : st.current_package.isSome = true)
    (hht : st.tasks = [] → st.last_buffer_hash = none) :
    ∃ st', processLine max_chunk_size overlap st line = Except.ok st' ∧
      st'.current_package.isSome = true ∧
      (st'.tasks = [] → st'.last_buffer_hash = none) ∧
      st'.buffer ≠ [] := by
  cases hm : matchPackageLine line with
  | none =>
    simp only [processLine, hm, except_pure_eq, except_bind_ok]
    by_cases hf : max_chunk_size < st.buffer_size + line.length
    · rw [if_pos hf]
      cases hlp : lastConfigPos st.buffer with
      | some i =>
        obtain ⟨s2, hfl, hcur, hbuf, hbs, hinv2, hmono, hwrt⟩ :=
          flushBuffer_INV (st.buffer.take (i + 1)) st false hp hht
        dsimp only
        rw [hfl]
        simp only [except_bind_ok, except_pure_eq]
        refine ⟨_, rfl, ?_, ?_, ?_⟩
        · show s2.current_package.isSome = true
          rw [hcur]
          exact hp
        · exact fun h => hinv2 h
        · simp
      | none =>
        obtain ⟨s2, hfl, hcur, hbuf, hbs, hinv2, hmono, hwrt⟩ :=
          flushBuffer_INV st.buffer st true hp hht
        dsimp only
        rw [hfl]
        simp only [except_bind_ok, except_pure_eq]
        refine ⟨_, rfl, ?_, ?_, ?_⟩
        · show s2.current_package.isSome = true
          rw [hcur]
          exact hp
        · exact fun h => hinv2 h
        · simp
    · rw [if_neg hf]
      exact ⟨_, rfl, hp, hht, by simp⟩
  | some pkg =>
    by_cases hbe : st.buffer = []
    · simp only [processLine, hm, hbe, if_pos, except_pure_eq, except_bind_ok]
      by_cases hf : max_chunk_size < st.buffer_size + line.length
      · rw [if_pos hf]
        simp only [show lastConfigPos ([] : List String) = none from rfl]
        rw [flushBuffer_nil]
        simp only [except_bind_ok, except_pure_eq]
        exact ⟨_, rfl, rfl, hht, by simp⟩
      · rw [if_neg hf]
        exact ⟨_, rfl, rfl, hht, by simp⟩
    · simp only [processLine, hm, hbe, if_neg, except_pure_eq, except_bind_ok]
      obtain ⟨s1, hfl, hcur, hbuf, hbs, hinv1, hmono, hwrt⟩ :=
        flushBuffer_INV st.buffer st false hp hht
      rw [hfl]
      simp only [except_bind_ok, except_pure_eq]
      by_cases hf : max_chunk_size < 0 + line.length
      · rw [if_pos hf]
        simp only [show lastConfigPos ([] : List String) = none from rfl]
        rw [flushBuffer_nil]
        simp only [except_bind_ok, except_pure_eq]
        exact ⟨_, rfl, rfl, fun h => hinv1 h, by simp⟩
      · rw [if_neg hf]
        exact ⟨_, rfl, rfl, fun h => hinv1 h, by simp⟩

theorem foldl_processLine_INV (max_chunk_size overlap : Nat) (lines : List String) :
    ∀ st : SplitState,
      st.current_package.isSome = true →
      (st.tasks = [] → st.last_buffer_hash = none) →
      st.buffer ≠ [] →
      ∃ st', lines.foldlM (processLine max_chunk_size overlap) st = Except.ok st' ∧
        st'.current_package.isSome = true ∧
        (st'.tasks = [] → st'.last_buffer_hash = none) ∧
        st'.buffer ≠ [] := by
  induction lines with
  | nil =>
    intro st h1 h2 h3
    exact ⟨st, rfl, h1, h2, h3⟩
  | cons l ls ih =>
    intro st h1 h2 h3
    obtain ⟨s1, hok, g1, g2, g3⟩ := processLine_INV max_chunk_size overlap st l h1 h2
    rw [List.foldlM_cons, hok, except_bind_ok]
    exact ih s1 g1 g2 g3

/-- C6 (amended): an empty input produces no chunk files and no error; a
non-empty input whose first line is a `package` declaration, fed to a
splitter whose `last_buffer_hash` carries no previous digest (e.g. a freshly
constructed one), produces at least one chunk file.  (The unamended claim
fails on non-empty inputs with no package declaration — flushing with
`current_package = None` raises — and on a reused splitter whose persisted
digest equals the single regenerated chunk, which skips the write.) -/
theorem C6_amended (max_chunk_size overlap : Nat)
    (fs0 annFs0 : List (String × String))
    (llm : String → String → Nat → Except String String) (input : String) :
    (splitLines input = [] →
      split_config max_chunk_size overlap none fs0 annFs0 llm input
        = Except.ok ⟨none, fs0, annFs0, []⟩) ∧
    (∀ l1 rest p, splitLines input = l1 :: rest → matchPackageLine l1 = some p →
      ∃ r, split_config max_chunk_size overlap none fs0 annFs0 llm input
          = Except.ok r ∧ r.tasks ≠ []) := by
  constructor
  · intro he
    simp only [split_config, he]
    rfl
  · intro l1 rest p hl hm
    have hfirst : ∃ st1, processLine max_chunk_size overlap
        ⟨none, none, [], 0, fs0, []⟩ l1 = Except.ok st1 ∧
        st1.current_package.isSome = true ∧
        (st1.tasks = [] → st1.last_buffer_hash = none) ∧ st1.buffer ≠ [] := by
      simp only [processLine, hm, except_pure_eq, except_bind_ok]
      rw [if_pos trivial]
      by_cases hf : max_chunk_size < 0 + l1.length
      · rw [if_pos hf]
        simp only [show lastConfigPos ([] : List String) = none from rfl]
        rw [flushBuffer_nil]
        simp only [except_bind_ok, except_pure_eq]
        exact ⟨_, rfl, rfl, fun _ => rfl, by simp⟩
      · rw [if_neg hf]
        exact ⟨_, rfl, rfl, fun _ => rfl, by simp⟩
    obtain ⟨st1, hok1, g1, g2, g3⟩ := hfirst
    obtain ⟨stE, hokE, e1, e2, e3⟩ :=
      foldl_processLine_INV max_chunk_size overlap rest st1 g1 g2 g3
    obtain ⟨stF, hokF, f1, f2, f3, f4, f5, f6⟩ :=
      flushBuffer_INV stE.buffer stE false e1 e2
    have htasks : stF.tasks ≠ [] := by
      by_cases ht : stE.tasks = []
      · exact f6 ht e3
      · exact f5 ht
    have hsc : split_config max_chunk_size overlap none fs0 annFs0 llm input
        = Except.ok ⟨stF.last_buffer_hash, stF.fs,
            stF.tasks.foldl (fun m c => dset m c.name
              (generateAnnotationFn (llm c.content c.pkg c.num) c.pkg c.num)) annFs0,
            stF.tasks⟩ := by
      simp only [split_config, hl]
      rw [List.foldlM_cons, hok1, except_bind_ok, hokE, except_bind_ok, if_neg e3,
        hokF, except_bind_ok]
      rfl
    exact ⟨_, hsc, htasks⟩

/-- Witness for C6 (amended): the empty input yields no chunks and no error;
`"package a\nx\n"` on a fresh splitter yields at least one chunk. -/
theorem C6_amended_witness :
    split_config 500 20 none [] [] llmDown ("") = Except.ok ⟨none, [], [], []⟩ ∧
    ∃ r, split_config 500 20 none [] [] llmDown c6wInput = Except.ok r ∧
      r.tasks ≠ [] :=
  ⟨(C6_amended 500 20 [] [] llmDown ("")).1 rfl,
    (C6_amended 500 20 [] [] llmDown c6wInput).2 ("package a\n") [("x\n")] ("a")
      (by decide) (by decide)⟩

/-- C6 counterexample: `split_config` on the non-empty input
`"config a 'b'\n"` — which declares no package — raises (the flush evaluates
`None.replace`) and writes no chunk file, where the claim promises at least
one chunk file and no error for every non-empty input. -/
theorem C6_counterexample :
    splitLines c6Input ≠ [] ∧
    split_config 500 20 none [] [] llmDown c6Input
      = Except.error ("AttributeError: NoneType has no attribute replace") :=
  ⟨by decide, by rfl⟩

/-- C5 counterexample: on `c5Input` (one `config x` unit growing to about a
kilobyte under `max_chunk_size = 500`, `overlap = 20`), the run's final flush
writes a chunk of 1023 characters.  That chunk is not produced by the forced
no-boundary branch (`forced = false`: the buffer always contains the unit's
config header), yet its body exceeds `max_chunk_size` by far more than any
overlap allowance — the only overlap content ever prepended in this run is
the 23-character `[package, config]` prefix and the written header adds 21
characters, so `600 = 500 + 100` is a generous bound.  The claim's exception
(`no config-header boundary inside the buffer ... forced flush`) therefore
does not cover this oversized chunk. -/
theorem C5_counterexample :
    c5Run.map (fun r => r.tasks.any
        (fun c => !c.forced && decide (600 < c.content.length)))
      = Except.ok true := by rfl

/-- Witness for C5 (amended) at a concrete state: with the buffer within the
500-character limit, the chunk flushed by the next iteration stays within the
limit. -/
theorem C5_chunk_bound_witness :
    ∃ st', processLine 17 2 c4wSt ("x\n") = Except.ok st' ∧
      ∀ c ∈ st'.tasks, c ∈ c4wSt.tasks ∨ c.content.length ≤ 17 := by
  have hok : (processLine 17 2 c4wSt ("x\n")).isOk = true := by decide
  cases hp : processLine 17 2 c4wSt ("x\n") with
  | error e =>
    rw [hp] at hok
    exact Bool.noConfusion hok
  | ok st' =>
    exact ⟨st', rfl, C5_chunk_bound 17 2 c4wSt ("x\n") st' (by decide) (by decide) hp⟩

/-- C7: the persistence tail of a sync performs exactly one
`faiss.write_index` attempt and at most one `save_mappings` attempt — the
source has no retry construct — and a failure propagating into
`generate_script`'s blanket `except` is logged and swallowed: the endpoint
still reports success.  The claim's retry-then-surface behaviour does not
exist in the code. -/
theorem C7_no_retry_error_swallowed (e : String) (save_outcome : Except String Unit) :
    syncPersistStep (Except.error e) save_outcome = (Except.error e, 1, 0) ∧
    generateScriptKnowledgeBlock (syncPersistStep (Except.error e) save_outcome).1
      = (true, some e) :=
  ⟨rfl, rfl⟩

/-- C8: the retriever equals the spec-side skip-and-collect semantics: every
id that lacks a mapping entry (including faiss's `-1` padding and a falsy
empty path) or whose mapped file is missing on disk is skipped without
aborting the remaining ids, and when nothing resolves the result is the
empty string, not an error (the model is a total function: every branch of
the source's loop either appends or continues). -/
theorem C8_retriever_skips (vector_id_to_file_path : List (Nat × String))
    (fs : List (String × String)) (indices : List Int) :
    retrieve_relevant_chunks vector_id_to_file_path fs indices
      = pyJoin ("\n\n") (indices.filterMap (resolveId vector_id_to_file_path fs)) ∧
    (indices.filterMap (resolveId vector_id_to_file_path fs) = [] →
      retrieve_relevant_chunks vector_id_to_file_path fs indices = ("")) := by
  have haux : ∀ (idx : List Int) (acc : List String),
      idx.foldl (fun acc vector_id =>
        match lookupVectorId vector_id_to_file_path vector_id with
        | none => acc
        | some file_path =>
          if file_path = ("") then acc
          else
            match dget fs file_path with
            | none => acc
            | some content => acc ++ [content]) acc
        = acc ++ idx.filterMap (resolveId vector_id_to_file_path fs) := by
    intro idx
    induction idx with
    | nil => intro acc; simp
    | cons i t ih =>
      intro acc
      rw [List.foldl_cons, List.filterMap_cons]
      cases hv : lookupVectorId vector_id_to_file_path i with
      | none =>
        simp only [resolveId, hv]
        exact ih acc
      | some fp =>
        by_cases hfp : fp = ("")
        · simp only [resolveId, hv, hfp, if_pos]
          exact ih acc
        · simp only [resolveId, hv, if_neg hfp]
          cases hd : dget fs fp with
          | none => exact ih acc
          | some content =>
            rw [ih (acc ++ [content])]
            simp
  have h1 : retrieve_relevant_chunks vector_id_to_file_path fs indices
      = pyJoin ("\n\n") (indices.filterMap (resolveId vector_id_to_file_path fs)) := by
    unfold retrieve_relevant_chunks
    rw [haux indices []]
    simp
  exact ⟨h1, fun h => by rw [h1, h]; rfl⟩

/-- Witness for C8: two unresolvable ids (a mapped path whose file is
missing, and faiss's `-1` padding) resolve to the empty result. -/
theorem C8_retriever_skips_witness :
    retrieve_relevant_chunks [(0, ("a.txt"))] [] [0, -1] = ("") :=
  (C8_retriever_skips [(0, ("a.txt"))] [] [0, -1]).2 (by decide)

/-- C9: on any failure of the external summarizer, `generate_annotation`
returns (it never raises: the model's error branch is the source's blanket
`except Exception`) the deterministic fallback string, which contains the
chunk's module name and sequence number as substrings. -/
theorem C9_annotation_fallback (e current_package : String) (chunk_num : Nat) :
    generateAnnotationFn (Except.error e) current_package chunk_num
      = ("This is the ") ++ natToStr chunk_num ++ ("th chunk file of the ")
          ++ current_package ++ (" package.") ∧
    current_package.toList <:+:
      (generateAnnotationFn (Except.error e) current_package chunk_num).toList ∧
    (natToStr chunk_num).toList <:+:
      (generateAnnotationFn (Except.error e) current_package chunk_num).toList := by
  refine ⟨rfl, ?_, ?_⟩
  · refine ⟨(("This is the ") ++ natToStr chunk_num ++ ("th chunk file of the ")).toList,
      (" package.").toList, ?_⟩
    show _ = (generateAnnotationFn (Except.error e) current_package chunk_num).toList
    rw [show generateAnnotationFn (Except.error e) current_package chunk_num
      = ("This is the ") ++ natToStr chunk_num ++ ("th chunk file of the ")
          ++ current_package ++ (" package.") from rfl]
    simp [String.data_append]
  · refine ⟨("This is the ").toList,
      (("th chunk file of the ") ++ current_package ++ (" package.")).toList, ?_⟩
    show _ = (generateAnnotationFn (Except.error e) current_package chunk_num).toList
    rw [show generateAnnotationFn (Except.error e) current_package chunk_num
      = ("This is the ") ++ natToStr chunk_num ++ ("th chunk file of the ")
          ++ current_package ++ (" package.") from rfl]
    simp [String.data_append]

/-- C10: `load_mappings` inverts `save_mappings` exactly: the `str` applied
to `id_to_file` keys is undone by `int`, and the identity `int` conversions
on the other map leave it unchanged. -/
theorem C10_save_load_roundtrip (f2i : List (String × Nat)) (i2f : List (Nat × String)) :
    load_mappings (save_mappings f2i i2f) = (f2i, i2f) := by
  unfold save_mappings load_mappings
  have hmap : (i2f.map (fun kv => (natToStr kv.1, kv.2))).mapM
      (fun kv => (parseNat kv.1).map (fun n => (n, kv.2))) = some i2f := by
    induction i2f with
    | nil => rfl
    | cons kv t ih =>
      obtain ⟨k, v⟩ := kv
      simp only [List.map_cons, List.mapM_cons, parseNat_natToStr, Option.map_some',
        Option.bind_eq_bind, Option.some_bind, ih]
      rfl
  rw [hmap]
  simp

theorem dkeys_dset_mem [DecidableEq α] (m : List (α × β)) (k : α) (v : β)
    (h : k ∈ dkeys m) : dkeys (dset m k v) = dkeys m := by
  induction m with
  | nil => simp [dkeys] at h
  | cons kv t ih =>
    obtain ⟨a, b⟩ := kv
    by_cases ha : a = k
    · subst ha
      simp [dset, dkeys]
    · simp only [dkeys, List.map_cons, List.mem_cons] at h
      rcases h with h | h
      · exact absurd h.symm ha
      · simp only [dset, if_neg ha, dkeys, List.map_cons]
        exact congrArg (List.cons a) (ih h)

theorem nodup_dkeys_dset [DecidableEq α] (m : List (α × β)) (k : α) (v : β)
    (h : (dkeys m).Nodup) : (dkeys (dset m k v)).Nodup := by
  by_cases hk : k ∈ dkeys m
  · rw [dkeys_dset_mem _ _ _ hk]
    exact h
  · rw [dset_of_not_mem _ _ _ hk]
    unfold dkeys at h ⊢
    rw [List.map_append]
    simp only [List.nodup_append, List.map_cons, List.map_nil]
    refine ⟨h, List.nodup_singleton k, ?_⟩
    intro x hx hmem
    rw [List.mem_singleton] at hmem
    subst hmem
    exact hk hx

theorem flushBuffer_fs_nodup (buf : List String) (st : SplitState) (forced : Bool)
    (st' : SplitState) (h : flushBuffer buf st forced = Except.ok st')
    (hnd : (dkeys st.fs).Nodup) : (dkeys st'.fs).Nodup := by
  obtain ⟨s1, s2, s3, s4⟩ := flushBuffer_spec buf st forced
  by_cases hb : buf = []
  · rw [s1 hb] at h
    cases h
    exact hnd
  · by_cases hh : st.last_buffer_hash = some (mdHash (pyJoin ("") buf))
    · rw [s2 hb hh] at h
      cases h
      exact hnd
    · cases hcp : st.current_package with
      | none =>
        rw [s3 hb hh hcp] at h
        exact Except.noConfusion h
      | some pkg =>
        rw [s4 pkg hb hh hcp] at h
        cases h
        exact nodup_dkeys_dset _ _ _ hnd

theorem processLine_fs_nodup (max_chunk_size overlap : Nat) (st : SplitState)
    (line : String) (st' : SplitState)
    (hstep : processLine max_chunk_size overlap st line = Except.ok st')
    (hnd : (dkeys st.fs).Nodup) : (dkeys st'.fs).Nodup := by
  cases hm : matchPackageLine line with
  | none =>
    simp only [processLine, hm, except_pure_eq, except_bind_ok] at hstep
    by_cases hf : max_chunk_size < st.buffer_size + line.length
    · rw [if_pos hf] at hstep
      cases hlp : lastConfigPos st.buffer with
      | some i =>
        simp only [hlp] at hstep
        cases hfl : flushBuffer (st.buffer.take (i + 1)) st false with
        | error e =>
          rw [hfl] at hstep
          simp only [except_bind_err] at hstep
          exact Except.noConfusion hstep
        | ok s0 =>
          rw [hfl] at hstep
          simp only [except_bind_ok, except_pure_eq] at hstep
          cases hstep
          exact flushBuffer_fs_nodup _ _ _ s0 hfl hnd
      | none =>
        simp only [hlp] at hstep
        cases hfl : flushBuffer st.buffer st true with
        | error e =>
          rw [hfl] at hstep
          simp only [except_bind_err] at hstep
          exact Except.noConfusion hstep
        | ok s0 =>
          rw [hfl] at hstep
          simp only [except_bind_ok, except_pure_eq] at hstep
          cases hstep
          exact flushBuffer_fs_nodup _ _ _ s0 hfl hnd
    · rw [if_neg hf] at hstep
      cases hstep
      exact hnd
  | some pkg =>
    by_cases hbe : st.buffer = []
    · simp only [processLine, hm, hbe, if_pos, except_pure_eq, except_bind_ok] at hstep
      by_cases hf : max_chunk_size < st.buffer_size + line.length
      · rw [if_pos hf] at hstep
        simp only [show lastConfigPos ([] : List String) = none from rfl] at hstep
        rw [flushBuffer_nil] at hstep
        simp only [except_bind_ok, except_pure_eq] at hstep
        cases hstep
        exact hnd
      · rw [if_neg hf] at hstep
        cases hstep
        exact hnd
    · simp only [processLine, hm, hbe, if_neg, except_pure_eq, except_bind_ok] at hstep
      cases hfl : flushBuffer st.buffer st false with
      | error e =>
        rw [hfl] at hstep
        simp only [except_bind_err] at hstep
        exact Except.noConfusion hstep
      | ok s0 =>
        rw [hfl] at hstep
        simp only [except_bind_ok, except_pure_eq] at hstep
        have hnd0 : (dkeys s0.fs).Nodup := flushBuffer_fs_nodup _ _ _ _ hfl hnd
        by_cases hf : max_chunk_size < 0 + line.length
        · rw [if_pos hf] at hstep
          simp only [show lastConfigPos ([] : List String) = none from rfl] at hstep
          rw [flushBuffer_nil] at hstep
          simp only [except_bind_ok, except_pure_eq] at hstep
          cases hstep
          exact hnd0
        · rw [if_neg hf] at hstep
          cases hstep
          exact hnd0

theorem split_config_fs_nodup (max_chunk_size overlap : Nat)
    (last_buffer_hash : Option String) (fs0 annFs0 : List (String × String))
    (llm : String → String → Nat → Except String String) (input : String)
    (r : SplitResult)
    (h : split_config max_chunk_size overlap last_buffer_hash fs0 annFs0 llm input
      = Except.ok r)
    (hnd : (dkeys fs0).Nodup) : (dkeys r.fs).Nodup := by
  simp only [split_config] at h
  cases hfold : (splitLines input).foldlM (processLine max_chunk_size overlap)
      ⟨last_buffer_hash, none, [], 0, fs0, []⟩ with
  | error e =>
    rw [hfold] at h
    exact Except.noConfusion h
  | ok stE =>
    rw [hfold] at h
    simp only [except_bind_ok] at h
    have hndE : (dkeys stE.fs).Nodup := by
      refine foldlM_preserves (processLine max_chunk_size overlap)
        (fun a b => (dkeys a.fs).Nodup → (dkeys b.fs).Nodup)
        (fun _ hx => hx)
        (fun _ _ _ hab hbc hx => hbc (hab hx))
        (fun a l b hstep hx => processLine_fs_nodup _ _ _ _ _ hstep hx)
        (splitLines input) _ stE hfold hnd
    by_cases hbe : stE.buffer = []
    · rw [if_pos hbe] at h
      simp only [except_pure_eq, except_bind_ok] at h
      cases h
      exact hndE
    · rw [if_neg hbe] at h
      cases hfl : flushBuffer stE.buffer stE false with
      | error e =>
        rw [hfl] at h
        simp only [except_bind_err] at h
        exact Except.noConfusion h
      | ok stF =>
        rw [hfl] at h
        simp only [except_bind_ok, except_pure_eq] at h
        cases h
        exact flushBuffer_fs_nodup _ _ _ _ hfl hndE

/-- C1 (amended): the two mapping dicts are exact bidirectional inverses
after a full sync unconditionally (the maps are cleared first and every glob
result is registered under a fresh id), and after a module-scoped sync or a
knowledge-unit registration provided every id assigned during the insertion
phase is not already a live key of `vector_id_to_file_path` and every newly
registered path is not already a key of `file_path_to_vector_id`.  Those
freshness conditions are what faiss id reuse after `remove_ids` violates
(`ntotal` drops below a live id, §9 of the spec's open question), so they
cannot be dropped — the unamended claim fails there. -/
theorem C1_mapping_inverse :
    (∀ (llm : String → String → Nat → Except String String) (s : GState)
        (full_config : String) (fin : GState),
      (dkeys s.fs).Nodup →
      sync_and_split_config llm s full_config = Except.ok fin →
      invMapsB fin.file_path_to_vector_id fin.vector_id_to_file_path = true) ∧
    (∀ (routerCfg : String → String)
        (llm : String → String → Nat → Except String String)
        (s : GState) (packages : List String) (mid : GState × List String),
      invMapsB s.file_path_to_vector_id s.vector_id_to_file_path = true →
      syncRegenPhase routerCfg llm (syncDeletePhase s packages) packages
        = Except.ok mid →
      (∀ v ∈ dkeys mid.1.vector_id_to_file_path, v < mid.1.vector_db.length) →
      mid.2.Nodup →
      (∀ p ∈ mid.2, dget mid.1.file_path_to_vector_id p = none) →
      sync_modified_config routerCfg llm s packages
          = Except.ok (syncAddPhase mid.1 mid.2, mid.2) ∧
      invMapsB (syncAddPhase mid.1 mid.2).file_path_to_vector_id
        (syncAddPhase mid.1 mid.2).vector_id_to_file_path = true) ∧
    (∀ (s : GState) (knowledge_id content : String),
      invMapsB s.file_path_to_vector_id s.vector_id_to_file_path = true →
      (∀ v ∈ dkeys s.vector_id_to_file_path, v < s.vector_db.length) →
      dget s.file_path_to_vector_id
          (("knowledge/") ++ (("knowledge_") ++ knowledge_id ++ (".txt"))) = none →
      invMapsB (registerKnowledge s knowledge_id content).file_path_to_vector_id
        (registerKnowledge s knowledge_id content).vector_id_to_file_path = true) := by
  refine ⟨?_, ?_, ?_⟩
  · intro llm s full_config fin hnd hsync
    simp only [sync_and_split_config] at hsync
    cases hsp : split_config 500 20 s.splitterHash
        (dset s.fs ("full_config.uci") full_config) s.annFs llm full_config with
    | error e =>
      rw [hsp] at hsync
      exact Except.noConfusion hsync
    | ok r =>
      rw [hsp] at hsync
      simp only [except_bind_ok, except_pure_eq] at hsync
      cases hsync
      have hndr : (dkeys r.fs).Nodup :=
        split_config_fs_nodup 500 20 s.splitterHash _ s.annFs llm full_config r hsp
          (nodup_dkeys_dset _ _ _ hnd)
      have hchunks : ((r.fs.filter (fun kv =>
          strEndsWith kv.1 (".txt") && !(kv.1.toList.contains '/')
            && !(strStartsWith kv.1 ("knowledge_")))).map (fun kv => kv.1)).Nodup :=
        ((List.filter_sublist r.fs).map (fun kv : String × String => kv.1)).nodup
          (by exact hndr)
      refine (syncAddPhase_inv _ _ ?_ ?_ ?_ ?_).1
      · rfl
      · intro v hv
        exact absurd hv (List.not_mem_nil v)
      · exact hchunks
      · intro q _
        rfl
  · intro routerCfg llm s packages mid hinv hregen hids hnd hfresh
    obtain ⟨s2, updated⟩ := mid
    have hdel := syncDeletePhase_inv s packages hinv
    obtain ⟨hm1, hm2, hm3⟩ :=
      syncRegenPhase_maps routerCfg llm (syncDeletePhase s packages) packages
        (s2, updated) hregen
    have hinvmid : invMapsB s2.file_path_to_vector_id s2.vector_id_to_file_path
        = true := by
      dsimp only at hm1 hm2
      rw [hm1, hm2]
      exact hdel
    obtain ⟨g1, g2, g3⟩ := syncAddPhase_inv updated s2 hinvmid hids hnd hfresh
    constructor
    · simp only [sync_modified_config, hregen, except_bind_ok, except_pure_eq]
    · exact g1
  · intro s knowledge_id content hinv hids hfresh
    exact (registerChunk_inv
      ({ s with fs := dset s.fs (("knowledge/") ++ (("knowledge_") ++ knowledge_id
          ++ (".txt"))) content })
      (("knowledge/") ++ (("knowledge_") ++ knowledge_id ++ (".txt")))
      hinv hids hfresh).1

/-- C1 counterexample: a full sync leaves the maps exact inverses (chunks
`a_part1.txt ↦ 0`, `b_part1.txt ↦ 1`), but the following module-scoped sync
of `{a}` removes id 0, dropping `ntotal` to 1, and then assigns id 1 — still
live for `b_part1.txt` — to the first regenerated chunk:
`file_path_to_vector_id["b_part1.txt"] = 1` while
`vector_id_to_file_path[1] = "a_part1.txt"`, so after this sync operation
the maps are not bidirectional inverses. -/
theorem C1_counterexample :
    cexState1.map (fun s =>
      invMapsB s.file_path_to_vector_id s.vector_id_to_file_path) = Except.ok true ∧
    cexState2.map (fun s =>
      invMapsB s.file_path_to_vector_id s.vector_id_to_file_path) = Except.ok false ∧
    cexState2.map (fun s => (dget s.file_path_to_vector_id ("b_part1.txt"),
        dget s.vector_id_to_file_path 1))
      = Except.ok (some 1, some ("a_part1.txt")) := ⟨rfl, rfl, rfl⟩

/-- Witness for C1 (amended): all three parts at concrete runs — the full
sync of `cexFullConfig`, the module-scoped sync of `{a}` with the
single-chunk export `c3Cfg` (whose mid state `c1wMid` satisfies the
freshness hypotheses), and a knowledge-unit registration on a fresh state. -/
theorem C1_mapping_inverse_witness :
    (∃ fin, sync_and_split_config llmDown gs0 cexFullConfig = Except.ok fin ∧
      invMapsB fin.file_path_to_vector_id fin.vector_id_to_file_path = true) ∧
    (sync_modified_config c3Cfg llmDown gs0 [("a")]
        = Except.ok (syncAddPhase c1wMid.1 c1wMid.2, c1wMid.2) ∧
      invMapsB (syncAddPhase c1wMid.1 c1wMid.2).file_path_to_vector_id
        (syncAddPhase c1wMid.1 c1wMid.2).vector_id_to_file_path = true) ∧
    invMapsB (registerKnowledge gs0 ("k1") ("some knowledge text")).file_path_to_vector_id
      (registerKnowledge gs0 ("k1") ("some knowledge text")).vector_id_to_file_path
      = true := by
  refine ⟨?_, ?_, ?_⟩
  · have hok : (sync_and_split_config llmDown gs0 cexFullConfig).isOk = true := by decide
    cases hp : sync_and_split_config llmDown gs0 cexFullConfig with
    | error e =>
      rw [hp] at hok
      exact Bool.noConfusion hok
    | ok fin =>
      exact ⟨fin, rfl, C1_mapping_inverse.1 llmDown gs0 cexFullConfig fin (by decide) hp⟩
  · exact C1_mapping_inverse.2.1 c3Cfg llmDown gs0 [("a")] c1wMid (by decide) (by rfl)
      (by decide) (by decide) (by decide)
  · exact C1_mapping_inverse.2.2 gs0 ("k1") ("some knowledge text") (by decide)
      (by decide) (by decide)

theorem syncAddPhase_db (chunks : List String) :
    ∀ s : GState, (syncAddPhase s chunks).vector_db
      = s.vector_db ++ List.range' s.vector_db.length chunks.length := by
  induction chunks with
  | nil => intro s; simp [syncAddPhase]
  | cons c cs ih =>
    intro s
    show (syncAddPhase (registerChunk s c) cs).vector_db = _
    rw [ih (registerChunk s c)]
    have h1 : (registerChunk s c).vector_db = s.vector_db ++ [s.vector_db.length] := rfl
    have h2 : (registerChunk s c).vector_db.length = s.vector_db.length + 1 := by
      rw [h1]
      simp
    rw [h2, h1, List.append_assoc, List.length_cons]
    simp [List.range'_succ]

/-- C2 (amended): the insertion phase assigns as ids exactly the successive
current counts of the index — `ntotal`, `ntotal + 1`, … — so the assigned
ids are strictly increasing and pairwise distinct, and they avoid every live
mapping key provided all live keys are below `ntotal`.  That proviso holds
as long as nothing was ever removed, but `remove_ids` lowers `ntotal`
without renumbering survivors, after which a live key can be `≥ ntotal` and
a fresh id collides with it (the unamended claim's `never collides ...
including after deletions` is refuted by `C2_counterexample`). -/
theorem C2_id_assignment (s : GState) (chunks : List String)
    (hfresh : ∀ v ∈ dkeys s.vector_id_to_file_path, v < s.vector_db.length) :
    (syncAddPhase s chunks).vector_db
      = s.vector_db ++ List.range' s.vector_db.length chunks.length ∧
    (List.range' s.vector_db.length chunks.length).Nodup ∧
    (∀ v ∈ List.range' s.vector_db.length chunks.length,
      v ∉ dkeys s.vector_id_to_file_path) := by
  refine ⟨syncAddPhase_db chunks s, List.nodup_range' _ _, ?_⟩
  intro v hv hmem
  have h1 := hfresh v hmem
  have h2 := (List.mem_range'_1.mp hv).1
  omega

/-- C2 counterexample: in the run of `C1_counterexample`, at the start of the
insertion phase the next id to be assigned is `ntotal = 1` — which is still
a live key of `vector_id_to_file_path`, mapped to `b_part1.txt` — and the
sync then records exactly that id for the regenerated chunk `a_part1.txt`:
the assigned id collides with a live id after `remove_ids`, and (two vectors
having been added before) it is not the count of vectors ever added. -/
theorem C2_counterexample :
    cexMid.map (fun mid => (mid.1.vector_db.length,
        dget mid.1.vector_id_to_file_path mid.1.vector_db.length, mid.2))
      = Except.ok (1, some ("b_part1.txt"), [("a_part1.txt"), ("a_part2.txt")]) ∧
    cexState2.map (fun s => dget s.file_path_to_vector_id ("a_part1.txt"))
      = Except.ok (some 1) := ⟨rfl, rfl⟩

/-- Witness for C2 (amended): registering two chunks on a fresh state assigns
the ids 0 and 1. -/
theorem C2_id_assignment_witness :
    (syncAddPhase gs0 [("x.txt"), ("y.txt")]).vector_db
      = gs0.vector_db ++ List.range' gs0.vector_db.length 2 ∧
    ∀ v ∈ List.range' gs0.vector_db.length 2,
      v ∉ dkeys gs0.vector_id_to_file_path :=
  ⟨(C2_id_assignment gs0 [("x.txt"), ("y.txt")] (by decide)).1,
   (C2_id_assignment gs0 [("x.txt"), ("y.txt")] (by decide)).2.2⟩

/-- C3: evaluation at the failing input.  Module-scoped sync of `{a}` with
the unchanged single-chunk export `c3Cfg`, run twice from a fresh state: the
first run leaves one chunk file `a_part1.txt`, one mapping entry and one
vector; the second run deletes them and then writes nothing — the splitter's
persistent `last_buffer_hash` still holds the digest of the identical
content, so `_flush_buffer` skips the write — leaving no chunk file, an
empty mapping table and an empty index, where the claim promises the same
filename set and the same mapping cardinality. -/
theorem C3_failing_eval :
    c3s1.map (fun p => (globNames p.1.fs ("a_part") (".txt"),
        p.1.file_path_to_vector_id.length, p.1.vector_db, p.2))
      = Except.ok ([("a_part1.txt")], 1, [0], [("a_part1.txt")]) ∧
    c3s2.map (fun p => (globNames p.1.fs ("a_part") (".txt"),
        p.1.file_path_to_vector_id.length, p.1.vector_db, p.2))
      = Except.ok ([], 0, [], []) := ⟨rfl, rfl⟩
